import Mathlib

/-!
# crik: checkpoint/restore supervisor

A shallow embedding of the supervisor (`cmd/crik/main.go`), the restore driver
(`internal/exec/restore.go`), the configuration and mount table
(`internal/exec/opts.go`) and the node-state server (`internal/controller/node/server.go`).

Go strings are Lean strings; the string helpers of the Go standard library that the
program calls (`strings.HasPrefix`, `strings.Split`, `filepath.Join`, ...) are defined on
the character lists, which agrees with Go's byte-wise definitions on UTF-8 text because
every separator and affix the program uses is ASCII.  Everything the program obtains
from the operating system or from a library (directory listings, file contents, YAML
and JSON decoding, process control, HTTP) is read from a `World` record: each field
gives the outcome of the corresponding call at the moment the program makes it.  What
`Run.Run` does to the outside is recorded as a list of `Event`s.
-/

set_option linter.dupNamespace false

namespace Crik

/-! ## Go standard library helpers -/

/-- Go `strings.HasPrefix`. -/
def HasPrefix (s pre : String) : Bool :=
  pre.data.isPrefixOf s.data

/-- Go `strings.HasSuffix`. -/
def HasSuffix (s suf : String) : Bool :=
  suf.data.reverse.isPrefixOf s.data.reverse

/-- Go `strings.TrimPrefix`: `s` without the leading `pre`, or `s` itself when it does
not start with `pre`. -/
def TrimPrefix (s pre : String) : String :=
  if HasPrefix s pre then ⟨s.data.drop pre.data.length⟩ else s

/-- Splitting a character list at every occurrence of `sep`; the result is never empty. -/
def splitChars (sep : Char) : List Char → List (List Char)
  | [] => [[]]
  | c :: cs =>
    if c = sep then [] :: splitChars sep cs
    else
      match splitChars sep cs with
      | [] => [[c]]
      | f :: fs => (c :: f) :: fs

/-- Go `strings.Split(s, sep)` for a separator of one character (the program only
splits on a newline and on a colon). -/
def Split (s : String) (sep : Char) : List String :=
  (splitChars sep s.data).map String.mk

/-- Go `strings.Trim(s, cutset)` for a cutset of one character. -/
def Trim (s : String) (c : Char) : String :=
  ⟨((s.data.dropWhile (· = c)).reverse.dropWhile (· = c)).reverse⟩

/-- One step of `filepath.Clean` on the stack of components kept so far (innermost
first): empty and `.` components are dropped, `..` removes the last kept component, is
dropped at the root of a rooted path, and is kept at the front of a relative one. -/
def cleanStep (rooted : Bool) (stack : List (List Char)) (comp : List Char) : List (List Char) :=
  if comp = [] ∨ comp = ['.'] then stack
  else if comp = ['.', '.'] then
    match stack with
    | [] => if rooted then [] else [comp]
    | top :: rest => if top = ['.', '.'] then comp :: stack else rest
  else comp :: stack

/-- Go `filepath.Clean` on a Unix path. -/
def Clean (path : String) : String :=
  if path = "" then "."
  else
    let rooted := path.data.head? = some '/'
    let stack := (splitChars '/' path.data).foldl (cleanStep rooted) []
    let body := String.mk (List.intercalate ['/'] stack.reverse)
    if rooted then "/" ++ body
    else if stack = [] then "." else body

/-- Go `filepath.Join`: leading empty elements are ignored, the rest is joined with
slashes and cleaned; the result is empty when every element is empty. -/
def Join : List String → String
  | [] => ""
  | e :: rest => if e = "" then Join rest else Clean ("/".intercalate (e :: rest))

/-- Go `filepath.Base`: the last element of the path, trailing slashes removed first;
`.` for the empty path and `/` for a path of slashes only. -/
def Base (path : String) : String :=
  if path = "" then "."
  else
    let stripped := (path.data.reverse.dropWhile (· = '/'))
    let last := (stripped.takeWhile (· ≠ '/')).reverse
    if last = [] then "/" else ⟨last⟩

/-- Go `error` values: one produced by the operating system or a library (with whether
`os.IsNotExist` holds of it), or one wrapped by `fmt.Errorf(ctx + "%w", inner)`. -/
inductive GoError where
  | lib (msg : String) (notExist : Bool)
  | wrap (ctx : String) (inner : GoError)
  deriving DecidableEq

/-- The `Error()` text. -/
def GoError.Error : GoError → String
  | .lib msg _ => msg
  | .wrap ctx inner => ctx ++ inner.Error

/-- Go `os.IsNotExist(err)`: it looks at the error itself and does not unwrap errors
wrapped by `fmt.Errorf`; it is false of the nil error. -/
def osIsNotExist : Option GoError → Bool
  | some (.lib _ b) => b
  | _ => false

/-- Go `errors.Is(err, os.ErrNotExist)`: follows the `%w` chain. -/
def errorsIsNotExist : GoError → Bool
  | .lib _ b => b
  | .wrap _ inner => errorsIsNotExist inner

/-! ## Data model (`internal/exec/opts.go`, `internal/controller/node/server.go`) -/

/-- The user configuration (`Configuration`). -/
structure Configuration where
  ImageDir : String := ""
  NodeStateServerURL : String := ""
  AdditionalPaths : List String := []
  InotifyIncompatiblePaths : List String := []
  deriving DecidableEq

/-- The configuration persisted in the image directory (`configurationOnDisk`). -/
structure configurationOnDisk where
  Configuration : Configuration := {}
  UnixFileDescriptorTrio : List String := []
  deriving DecidableEq

/-- One entry of the external-mount table (`DirectoryMount`). -/
structure DirectoryMount where
  Name : String
  PathInCheckpoint : String
  PathInRestore : String
  deriving DecidableEq

/-- The wire model of a node (`node.Node`). -/
structure Node where
  Name : String := ""
  State : String := ""
  deriving DecidableEq

/-- The package variable `NodeStateUnknown`. -/
def NodeStateUnknown : String := "unknown"

/-- The package variable `NodeStateShuttingDown`. -/
def NodeStateShuttingDown : String := "shutting-down"

/-- An open file handle (`*os.File`), known by the path it was opened at. -/
structure File where
  Name : String
  deriving DecidableEq

/-- A file of a captured descriptor set, as `crit` reports it. -/
structure CapturedFile where
  Path : String
  Type_ : String
  deriving DecidableEq

/-- The descriptors of one captured process, as `crit.ExploreFds` reports them. -/
structure CapturedFd where
  Files : List CapturedFile
  deriving DecidableEq

/-- The command built by `exec.Command(name, args...)`: the program name, the
arguments after it, and the extra files (`cmd.ExtraFiles`). -/
structure Cmd where
  Name : String
  Args : List String
  ExtraFiles : List File
  deriving DecidableEq

/-- A reply of the node-state oracle: the status code, and what
`json.NewDecoder(resp.Body).Decode(&response)` yields on its body. -/
structure Response where
  StatusCode : Nat
  Decoded : Except GoError Node

/-- A Go `map[string]string`: an association list whose keys are distinct. -/
abbrev GoMap := List (String × String)

/-- The assignment `m[k] = v`. -/
def mapSet : GoMap → String → String → GoMap
  | [], k, v => [(k, v)]
  | (k', v') :: rest, k, v => if k' = k then (k, v) :: rest else (k', v') :: mapSet rest k v

/-- The outcomes of the calls the program makes to the operating system and to
libraries.  An `Option GoError` is the returned `error` (`none` for nil). -/
structure World where
  /-- The result of `os.ReadFile`. -/
  ReadFile : String → Except GoError String
  /-- The result of `yaml.Unmarshal` into a `Configuration`; a decoding error is given
  by its text (it is an error of the decoder, never one of the file system). -/
  UnmarshalConfiguration : String → Except String Configuration
  /-- The result of `yaml.Unmarshal` into a `configurationOnDisk`. -/
  UnmarshalOnDisk : String → Except GoError configurationOnDisk
  /-- The result of `os.ReadDir`: the names of the entries read, and the error. -/
  ReadDir : String → List String × Option GoError
  /-- The result of `os.MkdirAll`. -/
  MkdirAll : String → Option GoError
  /-- The error `CopyDir src dst` returns on the current file system (`RestoreWithCmd`
  uses nothing else of the copy). -/
  CopyDir : String → String → Option GoError
  /-- The result of `crit.New(nil, nil, imageDir, false, false).ExploreFds()`. -/
  ExploreFds : String → Except GoError (List CapturedFd)
  /-- The order in which a `range` loop visits the entries of a map. -/
  rangeOrder : GoMap → GoMap
  /-- A `range` loop visits every entry of the map exactly once. -/
  rangeOrder_perm : ∀ m, (rangeOrder m).Perm m
  /-- The result of `os.OpenFile(path, O_RDONLY, 0)`. -/
  OpenFile : String → Option GoError
  /-- The result of running the restore command (`cmd.Run()`). -/
  RunCmd : Cmd → Option GoError
  /-- The result of `os.WriteFile`. -/
  WriteFile : String → String → Option GoError
  /-- The result of `cmd.Start()` for a command vector: the pid of the child. -/
  Start : List String → Except GoError Nat
  /-- The signal delivered on `signalChan`, if one ever is. -/
  Received : Option Nat
  /-- The result of `os.Getenv`. -/
  Getenv : String → String
  /-- The result of `http.Get`. -/
  HttpGet : String → Except GoError Response
  /-- The result of `cmd.Process.Signal`. -/
  Signal : Nat → Nat → Option GoError
  /-- The result of `cmd.Wait()`. -/
  Wait : Nat → Option GoError
  /-- The error `TakeCheckpoint(criu.MakeCriu(), pid, cfg)` returns (`Run.Run` uses
  nothing else of the checkpoint but its duration, which it prints). -/
  TakeCheckpoint : Nat → Configuration → Option GoError
  /-- The result of `os.Readlink`. -/
  Readlink : String → Except GoError String
  /-- The result of `yaml.Marshal` of a `configurationOnDisk`. -/
  MarshalOnDisk : configurationOnDisk → Except GoError String

/-- The signal number of `syscall.SIGTERM`. -/
def SIGTERM : Nat := 15

/-! ## `cmd/crik/main.go`: the image-directory probe -/

/-- The function `shouldRestore` of `cmd/crik/main.go`. -/
def shouldRestore (w : World) (cfg : Configuration) : Bool × Option GoError :=
  if cfg.ImageDir = "" then (false, none)
  else
    let entries := (w.ReadDir cfg.ImageDir).1
    let err := (w.ReadDir cfg.ImageDir).2
    if osIsNotExist err then (false, none)
    else
      match err with
      | some e => (false, some e)
      | none => if entries.any (fun name => HasSuffix name ".img") then (true, none) else (false, none)

/-! ## `internal/exec/opts.go`: the external-mount table and the captured cgroup files -/

/-- The package variable `DirectoryMounts`. -/
def DirectoryMounts : List DirectoryMount :=
  [ { Name := "zoneinfo", PathInCheckpoint := "/usr/share/zoneinfo", PathInRestore := "/usr/share/zoneinfo" },
    { Name := "null", PathInCheckpoint := "/dev/null", PathInRestore := "/dev/null" },
    { Name := "random", PathInCheckpoint := "/dev/random", PathInRestore := "/dev/random" },
    { Name := "urandom", PathInCheckpoint := "/dev/urandom", PathInRestore := "/dev/urandom" },
    { Name := "tty", PathInCheckpoint := "/dev/tty", PathInRestore := "/dev/tty" },
    { Name := "zero", PathInCheckpoint := "/dev/zero", PathInRestore := "/dev/zero" },
    { Name := "full", PathInCheckpoint := "/dev/full", PathInRestore := "/dev/full" } ]

/-- The function `GetExternalDirectoriesForCheckpoint`: a slice of the table's length
is made, and the loop stores `fmt.Sprintf("mnt[%s]:%s", d.PathInCheckpoint, d.Name)` at
the index of each entry `d`. -/
def GetExternalDirectoriesForCheckpoint : List String :=
  DirectoryMounts.enum.foldl
    (fun result p => result.set p.1 ("mnt[" ++ p.2.PathInCheckpoint ++ "]:" ++ p.2.Name))
    (List.replicate DirectoryMounts.length "")

/-- The function `GetExternalDirectoriesForRestore`: a slice of the table's length is
made, and the loop stores `fmt.Sprintf("mnt[%s]:%s", d.Name, d.PathInRestore)` at the
index of each entry `d`. -/
def GetExternalDirectoriesForRestore : List String :=
  DirectoryMounts.enum.foldl
    (fun result p => result.set p.1 ("mnt[" ++ p.2.Name ++ "]:" ++ p.2.PathInRestore))
    (List.replicate DirectoryMounts.length "")

/-- The constant `ConfigurationFileName`. -/
def ConfigurationFileName : String := "configuration.yaml"

/-- The body of the inner loop of `GetKubePodFilePaths`: a file that is not a regular
file under `/sys/fs/cgroup/kubepods.slice` is skipped, another one is stored under its
base name. -/
def kubePodStep (result : GoMap) (file : CapturedFile) : GoMap :=
  if !HasPrefix file.Path "/sys/fs/cgroup/kubepods.slice" || file.Type_ != "REG" then result
  else mapSet result (Base file.Path) file.Path

/-- The function `GetKubePodFilePaths`. -/
def GetKubePodFilePaths (w : World) (imageDir : String) : Except GoError GoMap :=
  match w.ExploreFds imageDir with
  | .error e => .error (.wrap "failed to explore fds: " e)
  | .ok fds => .ok (fds.foldl (fun result fd => fd.Files.foldl kubePodStep result) [])

/-! ## `internal/exec/restore.go`: the restore driver -/

/-- What a call of `RestoreWithCmd` comes to: an error returned before the engine is
started, a run-time panic, or the engine run with a command and the result of that
run. -/
inductive RestoreOutcome where
  | failed (err : GoError)
  | panicked
  | ran (cmd : Cmd) (err : Option GoError)
  deriving DecidableEq

/-- The loop of `RestoreWithCmd` over the captured cgroup files, in the order the
`range` visits them: each file is opened under `basePath` by its key, the captured
path without its leading slash is appended to the inherited descriptors and the handle
to the extra files; the first failing open ends the loop with its error. -/
def openKubePodFiles (w : World) (basePath : String) :
    List (String × String) → List String → List File → Except GoError (List String × List File)
  | [], inheritedFds, extraFiles => .ok (inheritedFds, extraFiles)
  | (k, v) :: rest, inheritedFds, extraFiles =>
    let path := Join [basePath, k]
    match w.OpenFile path with
    | some e => .error (.wrap ("failed to open " ++ k ++ ": ") e)
    | none =>
      openKubePodFiles w basePath rest (inheritedFds ++ [TrimPrefix v "/"]) (extraFiles ++ [⟨path⟩])

/-- The arguments `--inherit-fd fd[i]:target` of the last loop of `RestoreWithCmd`,
for the targets from index `i` on. -/
def inheritFdArgs : Nat → List String → List String
  | _, [] => []
  | i, fdStr :: rest =>
    "--inherit-fd" :: ("fd[" ++ toString i ++ "]:" ++ fdStr) :: inheritFdArgs (i + 1) rest

/-- The function `RestoreWithCmd`. -/
def RestoreWithCmd (w : World) (imageDir : String) : RestoreOutcome :=
  match w.MkdirAll "/tmp/.X11-unix" with
  | some e => .failed (.wrap "failed to mkdir /tmp/.X11-unix: " e)
  | none =>
  match w.CopyDir (Join [imageDir, "extraFiles"]) "/" with
  | some e => .failed (.wrap "failed to copy extra files: " e)
  | none =>
  let args := ["restore", "--images-dir", imageDir, "--tcp-established", "--file-locks",
    "--evasive-devices", "--tcp-close", "--manage-cgroups=ignore", "-v4",
    "--log-file", "restore.log"]
  match w.ReadFile (Join [imageDir, ConfigurationFileName]) with
  | .error e => .failed (.wrap "failed to read stdio file descriptors: " e)
  | .ok configYAML =>
  match w.UnmarshalOnDisk configYAML with
  | .error e => .failed (.wrap "failed to unmarshal stdio file descriptors: " e)
  | .ok conf =>
  let args := args ++ GetExternalDirectoriesForRestore.flatMap (fun d => ["--external", d])
  let inheritedFds := conf.UnixFileDescriptorTrio
  match GetKubePodFilePaths w imageDir with
  | .error e => .failed (.wrap "failed to get kubepods.slice files: " e)
  | .ok kubePodFiles =>
  let exec (inheritedFds : List String) (extraFiles : List File) : RestoreOutcome :=
    let cmd : Cmd := { Name := "criu", Args := args ++ inheritFdArgs 0 inheritedFds,
                       ExtraFiles := extraFiles }
    .ran cmd (w.RunCmd cmd)
  if kubePodFiles.length > 0 then
    match w.ReadFile "/proc/self/cgroup" with
    | .error e => .failed (.wrap "failed to read /proc/self/cgroup: " e)
    | .ok str =>
    match (Split str '\n')[0]? with
    | none => .panicked
    | some line =>
    match (Split line ':')[2]? with
    | none => .panicked
    | some rel =>
    let basePath := Join ["/sys/fs/cgroup", rel]
    match openKubePodFiles w basePath (w.rangeOrder kubePodFiles) inheritedFds [] with
    | .error e => .failed e
    | .ok (inheritedFds, extraFiles) => exec inheritedFds extraFiles
  else exec inheritedFds []

/-! ## `cmd/crik/main.go`: the supervisor -/

/-- The function `ReadConfiguration` of `internal/exec/opts.go`. -/
def ReadConfiguration (w : World) (path : String) : Configuration × Option GoError :=
  match w.ReadFile path with
  | .error e => ({}, some (.wrap "failed to read configuration file: " e))
  | .ok b =>
    match w.UnmarshalConfiguration b with
    | .error msg => ({}, some (.wrap "failed to unmarshal configuration: " (.lib msg false)))
    | .ok c => (c, none)

/-- A call the supervisor makes that acts on the outside world, recorded when the call
is made (whether or not it then succeeds). -/
inductive Event where
  | restoreWithCmd (imageDir : String) (out : RestoreOutcome)
  | writeFile (path data : String)
  | start (args : List String)
  | notify (sig : Nat)
  | httpGet (url : String)
  | signal (pid sig : Nat)
  | wait (pid : Nat)
  | takeCheckpoint (pid : Nat) (cfg : Configuration)
  deriving DecidableEq

/-- How a call of `Run.Run` ends: it returns an error value (nil or not), it panics, or
it stays blocked on the signal channel. -/
inductive RunResult where
  | returned (err : Option GoError)
  | panicked
  | blocked
  deriving DecidableEq

/-- The calls `Run.Run` made, in order, and how it ended. -/
structure RunOutcome where
  trace : List Event
  result : RunResult
  deriving DecidableEq

/-- The command `Run` of the command line: the command vector and the configuration
path. -/
structure Run where
  Args : List String
  ConfigPath : String := "/etc/crik/config.yaml"
  deriving DecidableEq

/-- The method `Run.Run`. -/
def Run.Run (w : World) (r : Run) : RunOutcome :=
  let cfg := (ReadConfiguration w r.ConfigPath).1
  let fatal : Option GoError :=
    match (ReadConfiguration w r.ConfigPath).2 with
    | some e => if !errorsIsNotExist e then some e else none
    | none => none
  match fatal with
  | some e => ⟨[], .returned (some (.wrap "failed to read configuration: " e))⟩
  | none =>
  match shouldRestore w cfg with
  | (_, some e) => ⟨[], .returned (some (.wrap "failed to check if restore is needed: " e))⟩
  | (true, none) =>
    let out := RestoreWithCmd w cfg.ImageDir
    ⟨[.restoreWithCmd cfg.ImageDir out],
      match out with
      | .failed e => .returned (some (.wrap "failed to restore: " e))
      | .panicked => .panicked
      | .ran _ (some e) => .returned (some (.wrap "failed to restore: " e))
      | .ran _ none => .returned none⟩
  | (false, none) =>
  if r.Args.length = 0 then
    ⟨[], .returned (some (.lib ("command is required when there is no checkpoint to restore, " ++
      "i.e. --image-dir is not given or empty") false))⟩
  else
  let lastPidPath := "/proc/sys/kernel/ns_last_pid"
  match w.WriteFile lastPidPath "9000" with
  | some e =>
    ⟨[.writeFile lastPidPath "9000"],
      .returned (some (.wrap ("failed to write to " ++ lastPidPath ++ ": ") e))⟩
  | none =>
  match w.Start r.Args with
  | .error e =>
    ⟨[.writeFile lastPidPath "9000", .start r.Args],
      .returned (some (.wrap "failed to start command: " e))⟩
  | .ok pid =>
  let started : List Event := [.writeFile lastPidPath "9000", .start r.Args]
  if cfg.ImageDir ≠ "" then
    match w.Received with
    | none => ⟨started ++ [.notify SIGTERM], .blocked⟩
    | some sig =>
    if sig = SIGTERM then
      let checkpoint (sofar : List Event) : RunOutcome :=
        match w.TakeCheckpoint pid cfg with
        | some e =>
          ⟨sofar ++ [.takeCheckpoint pid cfg], .returned (some (.wrap "failed to take checkpoint: " e))⟩
        | none => ⟨sofar ++ [.takeCheckpoint pid cfg, .wait pid], .returned (w.Wait pid)⟩
      if cfg.NodeStateServerURL ≠ "" then
        let nodeName := w.Getenv "KUBERNETES_NODE_NAME"
        let url := cfg.NodeStateServerURL ++ "/nodes/" ++ nodeName
        match w.HttpGet url with
        | .error e =>
          ⟨started ++ [.notify SIGTERM, .httpGet url],
            .returned (some (.wrap "failed to get node state: " e))⟩
        | .ok resp =>
        match resp.Decoded with
        | .error e =>
          ⟨started ++ [.notify SIGTERM, .httpGet url],
            .returned (some (.wrap "failed to decode node state: " e))⟩
        | .ok response =>
        if response.State ≠ NodeStateShuttingDown then
          match w.Signal pid SIGTERM with
          | some e =>
            ⟨started ++ [.notify SIGTERM, .httpGet url, .signal pid SIGTERM],
              .returned (some (.wrap "failed to send SIGTERM to the process: " e))⟩
          | none =>
            ⟨started ++ [.notify SIGTERM, .httpGet url, .signal pid SIGTERM, .wait pid],
              .returned (w.Wait pid)⟩
        else checkpoint (started ++ [.notify SIGTERM, .httpGet url])
      else checkpoint (started ++ [.notify SIGTERM])
    else ⟨started ++ [.notify SIGTERM, .wait pid], .returned (w.Wait pid)⟩
  else ⟨started ++ [.wait pid], .returned (w.Wait pid)⟩

/-- Whether `TakeCheckpoint` is among the calls made. -/
def invokesTakeCheckpoint (o : RunOutcome) : Bool :=
  o.trace.any (fun ev => match ev with | .takeCheckpoint _ _ => true | _ => false)

/-- Whether a child was started. -/
def spawnsChild (o : RunOutcome) : Bool :=
  o.trace.any (fun ev => match ev with | .start _ => true | _ => false)

/-! ## `internal/controller/node/server.go`: the node name of a request -/

/-- The node name `ServeHTTP` extracts from the path of a request URL. -/
def nodeNameOfPath (path : String) : String :=
  Trim (TrimPrefix path "/v1/nodes/") '/'

/-! ## `internal/controller/node/server.go`: the node-state server -/

/-- How a call ends that may panic at run time: it returns a value or it panics. -/
inductive Call (α : Type) where
  | returned (val : α)
  | panicked
  deriving DecidableEq

/-- The type `Server`: the map of node states and the embedded `*sync.RWMutex`, a
pointer that is nil (`none`) or points to a mutex. -/
structure Server where
  nodes : GoMap
  RWMutex : Option Unit
  deriving DecidableEq

/-- The function `NewServer`: it sets the map and leaves the embedded pointer nil. -/
def NewServer : Server := { nodes := [], RWMutex := none }

/-- The method `SetNodeState`: `s.Lock()` dereferences the embedded pointer, so the
call panics on a nil one; otherwise the state is stored. -/
def Server.SetNodeState (s : Server) (name state : String) : Call Server :=
  match s.RWMutex with
  | none => .panicked
  | some _ => .returned { s with nodes := mapSet s.nodes name state }

/-- The method `GetNodeState`: `s.RLock()` dereferences the embedded pointer; the
result is the stored state, or `NodeStateUnknown` when the map has none. -/
def Server.GetNodeState (s : Server) (name : String) : Call String :=
  match s.RWMutex with
  | none => .panicked
  | some _ =>
    match s.nodes.lookup name with
    | some node => .returned node
    | none => .returned NodeStateUnknown

/-- The method `DeleteNodeState`: `s.Lock()` dereferences the embedded pointer; the
entry of the name is deleted from the map. -/
def Server.DeleteNodeState (s : Server) (name : String) : Call Server :=
  match s.RWMutex with
  | none => .panicked
  | some _ => .returned { s with nodes := s.nodes.filter (fun p => p.1 ≠ name) }

/-- The parts of an `http.Request` that `ServeHTTP` reads. -/
structure Request where
  Method : String
  Path : String
  deriving DecidableEq

/-- The body of a reply: the text of `http.Error`, or the JSON document of a node. -/
inductive ReplyBody where
  | text (msg : String)
  | json (n : Node)
  deriving DecidableEq

/-- What `ServeHTTP` writes to the `http.ResponseWriter`. -/
structure Reply where
  Status : Nat
  Body : ReplyBody
  deriving DecidableEq

/-- The method `ServeHTTP`; a panic of `GetNodeState` ends the handler without a
reply. -/
def Server.ServeHTTP (s : Server) (r : Request) : Call Reply :=
  let nodeName := nodeNameOfPath r.Path
  if nodeName = "" then .returned ⟨400, .text "node query parameter is missing"⟩
  else if r.Method = "GET" then
    match s.GetNodeState nodeName with
    | .panicked => .panicked
    | .returned state => .returned ⟨200, .json { Name := nodeName, State := state }⟩
  else .returned ⟨405, .text "method not allowed"⟩

/-! ## The file system (`os`, `path/filepath`) -/

/-- A resolved path: the names from the root down to the entry. -/
abbrev Path := List String

/-- An entry of the file system: a regular file with its bytes and mode bits, or a
directory with its mode bits. -/
inductive Entry where
  | file (content : String) (mode : Nat)
  | dir (mode : Nat)
  deriving DecidableEq

/-- Go `IsDir` of an entry. -/
def Entry.isDir : Entry → Bool
  | .dir _ => true
  | .file _ _ => false

/-- The state of a file system of directories and regular files: its entries by
resolved path (the first binding of a path is the current one; the root `[]` is bound
to a directory) and the umask of the process.  The process runs as root, as the
checkpoint engine requires: mode bits never deny it access. -/
structure FS where
  entries : List (Path × Entry)
  umask : Nat
  deriving DecidableEq

/-- The path a name resolves to from the root: empty and `.` components are skipped and
`..` goes one directory up, staying at the root. -/
def resolve (path : String) : Path :=
  ((splitChars '/' path.data).foldl (cleanStep true) []).reverse.map String.mk

/-- The entry at a path, if there is one. -/
def FS.lookup (fs : FS) (p : Path) : Option Entry :=
  fs.entries.lookup p

/-- The file system with the entry at `p` set. -/
def FS.set (fs : FS) (p : Path) (e : Entry) : FS :=
  { fs with entries := (p, e) :: fs.entries }

/-- The mode bits a new entry gets from the requested bits: `perm &^ umask`. -/
def FS.masked (fs : FS) (perm : Nat) : Nat :=
  perm - (perm &&& fs.umask)

/-- Go `os.Stat` and `os.Lstat` (there are no symbolic links): the entry, or the error
`ENOTDIR` when a regular file lies on the way, or the not-exist error. -/
def FS.stat (fs : FS) (p : Path) : Except GoError Entry :=
  match fs.lookup p with
  | some e => .ok e
  | none =>
    if (List.range p.length).any
        (fun n => match fs.lookup (p.take n) with | some (.file _ _) => true | _ => false)
    then .error (.lib "not a directory" false)
    else .error (.lib "no such file or directory" true)

/-- The loop of Go `os.MkdirAll` from the directory `done` down the names `todo`: a
directory on the way is kept as it is, a missing one is made with the masked bits, and a
regular file on the way ends the call with `ENOTDIR`. -/
def FS.mkdirAllFrom (perm : Nat) : FS → Path → List String → FS × Option GoError
  | fs, _, [] => (fs, none)
  | fs, done, name :: rest =>
    match fs.lookup (done ++ [name]) with
    | some (.dir _) => FS.mkdirAllFrom perm fs (done ++ [name]) rest
    | some (.file _ _) => (fs, some (.lib "not a directory" false))
    | none =>
      FS.mkdirAllFrom perm (fs.set (done ++ [name]) (.dir (fs.masked perm))) (done ++ [name]) rest

/-- Go `os.MkdirAll(path, perm)`. -/
def FS.MkdirAll (fs : FS) (p : Path) (perm : Nat) : FS × Option GoError :=
  FS.mkdirAllFrom perm fs [] p

/-- Go `os.OpenFile(path, O_WRONLY|O_CREATE|O_TRUNC, perm)`: the parent must be a
directory and the path not one; an existing file is emptied and keeps its mode, a new
one gets the masked bits. -/
def FS.openTrunc (fs : FS) (p : Path) (perm : Nat) : FS × Option GoError :=
  match fs.lookup p.dropLast with
  | some (.dir _) =>
    match fs.lookup p with
    | some (.dir _) => (fs, some (.lib "is a directory" false))
    | some (.file _ mode) => (fs.set p (.file "" mode), none)
    | none => (fs.set p (.file "" (fs.masked perm)), none)
  | some (.file _ _) => (fs, some (.lib "not a directory" false))
  | none => (fs, some (.lib "no such file or directory" true))

/-- Go `os.Create(path)`. -/
def FS.Create (fs : FS) (p : Path) : FS × Option GoError :=
  fs.openTrunc p 0o666

/-- Go `os.WriteFile(path, data, perm)`. -/
def FS.WriteFile (fs : FS) (p : Path) (data : String) (perm : Nat) : FS × Option GoError :=
  match fs.openTrunc p perm with
  | (fs1, some e) => (fs1, some e)
  | (fs1, none) =>
    match fs1.lookup p with
    | some (.file _ mode) => (fs1.set p (.file data mode), none)
    | _ => (fs1, some (.lib "bad file descriptor" false))

/-- Go `os.RemoveAll(path)`: the entry and everything below it are removed; a missing
path is not an error. -/
def FS.RemoveAll (fs : FS) (p : Path) : FS :=
  { fs with entries := fs.entries.filter (fun q => !(p.isPrefixOf q.1)) }

/-- The order of file names: character by character, a shorter name before its
extensions (the byte order of the UTF-8 text). -/
def nameLe : List Char → List Char → Bool
  | [], _ => true
  | _ :: _, [] => false
  | a :: as, b :: bs =>
    if a.toNat < b.toNat then true
    else if b.toNat < a.toNat then false
    else nameLe as bs

/-- The names of the entries of the directory `p`, sorted as Go `os.ReadDir` sorts
them. -/
def FS.names (fs : FS) (p : Path) : List String :=
  ((fs.entries.filterMap
      (fun q => if q.1.dropLast = p then q.1.getLast? else none)).dedup).insertionSort
    (fun a b => nameLe a.data b.data = true)

/-- Go `os.ReadDir(path)` for a directory: its entries in name order, each with its path
and whether it is a directory. -/
def FS.children (fs : FS) (p : Path) : List (Path × Bool) :=
  (fs.names p).filterMap
    (fun n => (fs.lookup (p ++ [n])).map (fun e => (p ++ [n], e.isDir)))

/-! ## `internal/exec/opts.go`: `CopyDir` -/

/-- The function literal `CopyDir` passes to `filepath.WalkDir`, called on the walked
path `srcPath` below `src` with `d.IsDir()`.  `rel` is `srcPath` without the names of
`src` and `dstPath` is `dst` followed by `rel`.  A directory is made with
`os.MkdirAll(dstPath, d.Type().Perm())`: `d.Type()` holds the type bits of the entry
only, so the permission bits passed are 0.  For another entry the parent of `dstPath`
is made with the bits 0755, the source is opened, the destination created, the bytes
copied (`io.Copy` fails on a directory) and the mode of the source applied with
`os.Chmod`. -/
def copyEntry (src dst : Path) (fs : FS) (srcPath : Path) (isDir : Bool) : FS × Option GoError :=
  let rel := srcPath.drop src.length
  let dstPath := dst ++ rel
  if isDir then fs.MkdirAll dstPath 0
  else
    match fs.MkdirAll dstPath.dropLast 0o755 with
    | (fs1, some e) => (fs1, some e)
    | (fs1, none) =>
    match fs1.stat srcPath with
    | .error e => (fs1, some e)
    | .ok _ =>
    match fs1.Create dstPath with
    | (fs2, some e) => (fs2, some e)
    | (fs2, none) =>
    match fs2.lookup srcPath with
    | some (.file content mode) => (fs2.set dstPath (.file content mode), none)
    | some (.dir _) => (fs2, some (.lib "is a directory" false))
    | none => (fs2, some (.lib "bad file descriptor" false))

/-- Go `filepath.WalkDir` with the function of `CopyDir`, as a list of entries still to
visit: the first is visited, and when it is a directory its entries, read after the
visit, are put in front of the rest in name order.  The first error ends the walk.  The
result is `none` when the fuel runs out before the walk ends. -/
def walk (src dst : Path) : Nat → FS → List (Path × Bool) → Option (FS × Option GoError)
  | _, fs, [] => some (fs, none)
  | 0, _, _ :: _ => none
  | fuel + 1, fs, (path, isDir) :: rest =>
    match copyEntry src dst fs path isDir with
    | (fs1, some e) => some (fs1, some e)
    | (fs1, none) =>
      if isDir then walk src dst fuel fs1 (fs1.children path ++ rest)
      else walk src dst fuel fs1 rest

/-- The function `CopyDir`: `os.Lstat` of the root, whose error the walk function
returns as it is, then the walk from the root. -/
def CopyDir (fuel : Nat) (fs : FS) (src dst : String) : Option (FS × Option GoError) :=
  match fs.stat (resolve src) with
  | .error e => some (fs, some e)
  | .ok e => walk (resolve src) (resolve dst) fuel fs [(resolve src, e.isDir)]

/-! ## `internal/exec/checkpoint.go`: the pre-dump action -/

/-- The type `Actions`. -/
structure Actions where
  pid : Int
  configuration : Configuration

/-- A call of `PreDump` that acts on the file system, recorded when the call is made. -/
inductive FsEvent where
  | removeAll (path : String)
  | writeFile (path data : String) (perm : Nat)
  | mkdirAll (path : String) (perm : Nat)
  | copyDir (src dst : String)
  deriving DecidableEq

/-- What a call of `PreDump` comes to: the file system it leaves, the calls it made, and
the error it returns. -/
structure PreDumpOutcome where
  fs : FS
  trace : List FsEvent
  err : Option GoError

/-- The loop of `PreDump` over the descriptor indices: the link target of
`<fdDir>/<i>` is read for each index in turn, and the first failure ends the loop with
its error. -/
def readTrio (w : World) (fdDir : String) : List Nat → Except GoError (List String)
  | [] => .ok []
  | i :: rest =>
    let fdPath := Join [fdDir, toString i]
    match w.Readlink fdPath with
    | .error e => .error (.wrap ("failed to read link of " ++ fdPath ++ ": ") e)
    | .ok link =>
      match readTrio w fdDir rest with
      | .error e => .error e
      | .ok links => .ok (link :: links)

/-- The loop of `PreDump` over `AdditionalPaths`: a path whose `os.Stat` fails with a
not-exist error is skipped, another one is copied below `extraFiles`; the first failing
copy ends the loop.  The result is `none` when a copy runs out of fuel. -/
def copyAdditional (fuel : Nat) (imageDir : String) :
    FS → List FsEvent → List String → Option PreDumpOutcome
  | fs, trace, [] => some ⟨fs, trace, none⟩
  | fs, trace, p :: rest =>
    let skip : Bool :=
      match fs.stat (resolve p) with
      | .error e => osIsNotExist (some e)
      | .ok _ => false
    if skip then copyAdditional fuel imageDir fs trace rest
    else
      let dst := Join [imageDir, "extraFiles", p]
      match CopyDir fuel fs p dst with
      | none => none
      | some (fs1, some e) =>
        some ⟨fs1, trace ++ [.copyDir p dst], some (.wrap ("failed to copy " ++ p ++ ": ") e)⟩
      | some (fs1, none) => copyAdditional fuel imageDir fs1 (trace ++ [.copyDir p dst]) rest

/-- The method `Actions.PreDump`, run on a file system.  In this file system
`os.RemoveAll` does not fail, so the return of its error is not reached. -/
def Actions.PreDump (fuel : Nat) (w : World) (fs : FS) (a : Actions) : Option PreDumpOutcome :=
  let fs1 := a.configuration.InotifyIncompatiblePaths.foldl
    (fun fs p => fs.RemoveAll (resolve p)) fs
  let removed := a.configuration.InotifyIncompatiblePaths.map FsEvent.removeAll
  let fdDir := Join ["/proc", toString a.pid, "fd"]
  match readTrio w fdDir [0, 1, 2] with
  | .error e => some ⟨fs1, removed, some e⟩
  | .ok trio =>
  let conf : configurationOnDisk :=
    { Configuration := a.configuration, UnixFileDescriptorTrio := trio }
  match w.MarshalOnDisk conf with
  | .error e => some ⟨fs1, removed, some (.wrap "failed to marshal fds: " e)⟩
  | .ok confYAML =>
  let confPath := Join [a.configuration.ImageDir, ConfigurationFileName]
  match fs1.WriteFile (resolve confPath) confYAML 0o600 with
  | (fs2, some e) =>
    some ⟨fs2, removed ++ [.writeFile confPath confYAML 0o600],
      some (.wrap "failed to write stdio-fds.json: " e)⟩
  | (fs2, none) =>
  let extra := Join [a.configuration.ImageDir, "extraFiles"]
  match fs2.MkdirAll (resolve extra) 0o755 with
  | (fs3, some e) =>
    some ⟨fs3, removed ++ [.writeFile confPath confYAML 0o600, .mkdirAll extra 0o755],
      some (.wrap "failed to create extra path: " e)⟩
  | (fs3, none) =>
    copyAdditional fuel a.configuration.ImageDir fs3
      (removed ++ [.writeFile confPath confYAML 0o600, .mkdirAll extra 0o755])
      a.configuration.AdditionalPaths

/-- Whether a call is a write of a file. -/
def FsEvent.isWrite : FsEvent → Bool
  | .writeFile _ _ _ => true
  | _ => false

/-! ## Concrete worlds -/

/-- A world with no configuration file, in which every other call succeeds and no
signal ever arrives. -/
def quietWorld : World where
  ReadFile := fun _ => .error (.lib "no such file or directory" true)
  UnmarshalConfiguration := fun _ => .ok {}
  UnmarshalOnDisk := fun _ => .ok {}
  ReadDir := fun _ => ([], some (.lib "no such file or directory" true))
  MkdirAll := fun _ => none
  CopyDir := fun _ _ => none
  ExploreFds := fun _ => .ok []
  rangeOrder := fun m => m
  rangeOrder_perm := fun m => List.Perm.refl m
  OpenFile := fun _ => none
  RunCmd := fun _ => none
  WriteFile := fun _ _ => none
  Start := fun _ => .ok 9001
  Received := none
  Getenv := fun _ => ""
  HttpGet := fun _ => .error (.lib "connection refused" false)
  Signal := fun _ _ => none
  Wait := fun _ => none
  TakeCheckpoint := fun _ _ => none
  Readlink := fun _ => .error (.lib "no such file or directory" true)
  MarshalOnDisk := fun _ => .ok ""

/-- A world in run mode: the configuration names the image directory `/ckpt`, which
holds no image, and the oracle `http://oracle:9376`; SIGTERM arrives; the oracle
answers with the given status code and a body that decodes to the given state; the
forwarding of SIGTERM to the child returns `signalErr`. -/
def oracleWorld (status : Nat) (state : String) (signalErr : Option GoError) : World :=
  { quietWorld with
    ReadFile := fun _ => .ok "imageDir: /ckpt"
    UnmarshalConfiguration := fun _ =>
      .ok { ImageDir := "/ckpt", NodeStateServerURL := "http://oracle:9376" }
    ReadDir := fun _ => (["dump.log"], none)
    Received := some SIGTERM
    Getenv := fun key => if key = "KUBERNETES_NODE_NAME" then "node-a" else ""
    HttpGet := fun _ => .ok ⟨status, .ok ⟨"node-a", state⟩⟩
    Signal := fun _ _ => signalErr }

/-- The command line `crik run -- /bin/sleep 100`. -/
def sleepRun : Run := { Args := ["/bin/sleep", "100"] }

/-- A world in restore mode: the configuration names the image directory `/ckpt`,
which holds an image; the persisted configuration carries the given trio, the image
the given captured files, and `/proc/self/cgroup` has the given content. -/
def restoreWorld (trio : List String) (captured : List CapturedFile) (cgroup : String) : World :=
  { quietWorld with
    ReadFile := fun p =>
      if p = "/proc/self/cgroup" then .ok cgroup
      else if p = "/ckpt/configuration.yaml" then .ok "persisted"
      else .ok "imageDir: /ckpt"
    UnmarshalConfiguration := fun _ => .ok { ImageDir := "/ckpt" }
    UnmarshalOnDisk := fun _ =>
      .ok { Configuration := { ImageDir := "/ckpt" }, UnixFileDescriptorTrio := trio }
    ReadDir := fun _ => (["configuration.yaml", "core-9001.img"], none)
    ExploreFds := fun _ => .ok [⟨captured⟩] }

/-- The stdio targets of a container: the null device and two pipes. -/
def stdioTrio : List String := ["/dev/null", "pipe:[101]", "pipe:[102]"]

/-- Two cgroup control files of one pod, and a file outside the cgroup tree. -/
def podFiles : List CapturedFile :=
  [⟨"/sys/fs/cgroup/kubepods.slice/pod1/memory.max", "REG"⟩,
   ⟨"/etc/hosts", "REG"⟩,
   ⟨"/sys/fs/cgroup/kubepods.slice/pod1/cpu.max", "REG"⟩]

/-- Two cgroup control files with the same base name in different directories. -/
def sameBaseFiles : List CapturedFile :=
  [⟨"/sys/fs/cgroup/kubepods.slice/pod1/memory.max", "REG"⟩,
   ⟨"/sys/fs/cgroup/kubepods.slice/pod1/app/memory.max", "REG"⟩]

/-- The leading arguments of the restore command for `/ckpt`, written out. -/
def ckptArgsHead : List String :=
  ["restore", "--images-dir", "/ckpt", "--tcp-established", "--file-locks",
   "--evasive-devices", "--tcp-close", "--manage-cgroups=ignore", "-v4",
   "--log-file", "restore.log",
   "--external", "mnt[zoneinfo]:/usr/share/zoneinfo", "--external", "mnt[null]:/dev/null",
   "--external", "mnt[random]:/dev/random", "--external", "mnt[urandom]:/dev/urandom",
   "--external", "mnt[tty]:/dev/tty", "--external", "mnt[zero]:/dev/zero",
   "--external", "mnt[full]:/dev/full"]

/-- The restore command for `podFiles` in the cgroup `/kubepods.slice/pod2`. -/
def podRestoreCmd : Cmd :=
  { Name := "criu",
    Args := ckptArgsHead ++
      ["--inherit-fd", "fd[0]:/dev/null", "--inherit-fd", "fd[1]:pipe:[101]",
       "--inherit-fd", "fd[2]:pipe:[102]",
       "--inherit-fd", "fd[3]:sys/fs/cgroup/kubepods.slice/pod1/memory.max",
       "--inherit-fd", "fd[4]:sys/fs/cgroup/kubepods.slice/pod1/cpu.max"],
    ExtraFiles := [⟨"/sys/fs/cgroup/kubepods.slice/pod2/memory.max"⟩,
                   ⟨"/sys/fs/cgroup/kubepods.slice/pod2/cpu.max"⟩] }

/-- A file system at checkpoint time: the image directory `/ckpt` and the directory
`/data` with a file and a subdirectory; the umask is 022. -/
def dumpFS : FS :=
  { entries :=
      [([], .dir 0o755), (["ckpt"], .dir 0o755), (["data"], .dir 0o750),
       (["data", "a.txt"], .file "hello" 0o644), (["data", "sub"], .dir 0o700),
       (["data", "sub", "c"], .file "sea" 0o444)],
    umask := 0o022 }

/-- A world at checkpoint time: the child 9001 has the null device and two pipes as its
standard descriptors. -/
def dumpWorld : World :=
  { quietWorld with
    Readlink := fun p =>
      if p = "/proc/9001/fd/0" then .ok "/dev/null"
      else if p = "/proc/9001/fd/1" then .ok "pipe:[101]"
      else if p = "/proc/9001/fd/2" then .ok "pipe:[102]"
      else .error (.lib "no such file or directory" true)
    MarshalOnDisk := fun conf =>
      .ok ("unixFileDescriptorTrio: " ++ ", ".intercalate conf.UnixFileDescriptorTrio) }

/-- The pre-dump action for the child 9001 with the image directory `/ckpt` and two
additional paths, of which `/missing` does not exist. -/
def dumpActions : Actions :=
  { pid := 9001,
    configuration := { ImageDir := "/ckpt", AdditionalPaths := ["/data", "/missing"] } }

/-- The file system `dumpFS` after the checkpoint-side copy of `/data`. -/
def dumpedFS : FS :=
  ((CopyDir 100 dumpFS "/data" "/ckpt/extraFiles/data").getD (dumpFS, none)).1

/-- A restoring file system: the image directory as the checkpoint left it, and at
`/data/a.txt` another content and mode. -/
def restoringFS : FS :=
  dumpedFS.set ["data", "a.txt"] (.file "stale" 0o600)

/-- The file system `restoringFS` after the restore-side copy of the extra files. -/
def restoredFS : FS :=
  ((CopyDir 100 restoringFS "/ckpt/extraFiles" "/").getD (restoringFS, none)).1

/-- A restoring file system with a directory at `/data/a.txt`, where the image holds a
regular file. -/
def blockedFS : FS :=
  dumpedFS.set ["data", "a.txt"] (.dir 0o755)

/-- A file system with a file `/configuration.yaml` beside the image directory `/ckpt`. -/
def overwriteFS : FS :=
  { entries :=
      [([], .dir 0o755), (["ckpt"], .dir 0o755),
       (["configuration.yaml"], .file "imageDir: /elsewhere" 0o644)],
    umask := 0o022 }

/-- The pre-dump action for the child 9001 with the image directory `/ckpt` and the
additional path `/../configuration.yaml`. -/
def overwriteActions : Actions :=
  { pid := 9001,
    configuration := { ImageDir := "/ckpt", AdditionalPaths := ["/../configuration.yaml"] } }

/-! ## Definitions used to state the properties -/

/-- The arguments of the restore command that come before the `--inherit-fd` ones. -/
def restoreArgsHead (imageDir : String) : List String :=
  ["restore", "--images-dir", imageDir, "--tcp-established", "--file-locks",
    "--evasive-devices", "--tcp-close", "--manage-cgroups=ignore", "-v4",
    "--log-file", "restore.log"] ++
  GetExternalDirectoriesForRestore.flatMap (fun d => ["--external", d])

/-- The captured files `GetKubePodFilePaths` keeps. -/
def isKubePodFile (file : CapturedFile) : Prop :=
  HasPrefix file.Path "/sys/fs/cgroup/kubepods.slice" = true ∧ file.Type_ = "REG"

/-- The entry at `src ++ rel` belongs to the tree rooted at `src`: every path from `src`
down to its parent is a directory. -/
def InTree (fs : FS) (src : Path) (rel : List String) : Prop :=
  ∀ k, k < rel.length → ∃ m, fs.lookup (src ++ rel.take k) = some (.dir m)

/-- The copy of the tree at `src` to `dst` writes nothing into the tree it reads: no
entry below `src` has its destination below `src`. -/
def Apart (fs : FS) (src dst : Path) : Prop :=
  ∀ rel, fs.lookup (src ++ rel) ≠ none → ¬ src <+: dst ++ rel

/-- Every directory on the way from the root down to `p` exists (the root apart). -/
def DirsTo (fs : FS) (p : Path) : Prop :=
  ∀ k, 0 < k → k ≤ p.length → ∃ m, fs.lookup (p.take k) = some (.dir m)

/-- The state of a walk that copies the tree at `src` of the file system `start` to
`dst`: the tree at `src` is as at the start, the entries still to visit are entries of
it, and every regular file and every directory of it is either copied, with the
directories on the way to it, or below an entry still to visit. -/
structure WalkInv (start : FS) (src dst : Path) (fs : FS) (todo : List (Path × Bool)) :
    Prop where
  source : ∀ q, src <+: q → fs.lookup q = start.lookup q
  pending : ∀ w b, (w, b) ∈ todo →
    ∃ rel e, w = src ++ rel ∧ start.lookup w = some e ∧ b = e.isDir
  files : ∀ rel c m, start.lookup (src ++ rel) = some (.file c m) → InTree start src rel →
    (fs.lookup (dst ++ rel) = some (.file c m) ∧ DirsTo fs (dst ++ rel).dropLast) ∨
      ∃ w b, (w, b) ∈ todo ∧ w <+: src ++ rel
  dirs : ∀ rel m, start.lookup (src ++ rel) = some (.dir m) → InTree start src rel →
    DirsTo fs (dst ++ rel) ∨ ∃ w b, (w, b) ∈ todo ∧ w <+: src ++ rel

/-- A check of `Apart` on the entries of a file system. -/
def apartCheck (fs : FS) (src dst : Path) : Bool :=
  fs.entries.all
    (fun q => !(src.isPrefixOf q.1 && src.isPrefixOf (dst ++ q.1.drop src.length)))

/-- The number of entries of `start` at or below the path `w`. -/
def weight (start : FS) (w : Path) : Nat :=
  start.entries.countP (fun q => w.isPrefixOf q.1)

/-- The fuel a walk needs for the entries still to visit: the number of entries of
`start` at or below them. -/
def pendingWeight (start : FS) (todo : List (Path × Bool)) : Nat :=
  (todo.map (fun t => weight start t.1)).sum

/-! ## Facts about the string helpers -/

theorem hasSuffix_iff (s suf : String) :
    HasSuffix s suf = true ↔ ∃ stem : String, s = stem ++ suf := by
  unfold HasSuffix
  rw [List.isPrefixOf_iff_prefix, List.reverse_prefix]
  constructor
  · rintro ⟨t, ht⟩
    exact ⟨⟨t⟩, String.ext (by simp [ht])⟩
  · rintro ⟨stem, rfl⟩
    exact ⟨stem.data, by simp⟩

theorem hasPrefix_iff (s pre : String) :
    HasPrefix s pre = true ↔ ∃ rest : String, s = pre ++ rest := by
  unfold HasPrefix
  rw [List.isPrefixOf_iff_prefix]
  constructor
  · rintro ⟨t, ht⟩
    exact ⟨⟨t⟩, String.ext (by simp [ht])⟩
  · rintro ⟨rest, rfl⟩
    exact ⟨rest.data, by simp⟩

/-! ## Facts about the restore driver's loops and the captured-file map -/

theorem splitChars_of_not_mem (sep : Char) (l : List Char) (h : sep ∉ l) :
    splitChars sep l = [l] := by
  induction l with
  | nil => rfl
  | cons c cs ih =>
    have hc : ¬ c = sep := fun e => h (e ▸ List.mem_cons_self _ _)
    have hcs : sep ∉ cs := fun m => h (List.mem_cons_of_mem _ m)
    simp [splitChars, hc, ih hcs]

theorem splitChars_append_sep (sep : Char) (a b : List Char) (h : sep ∉ a) :
    splitChars sep (a ++ sep :: b) = a :: splitChars sep b := by
  induction a with
  | nil => simp [splitChars]
  | cons c cs ih =>
    have hc : ¬ c = sep := fun e => h (e ▸ List.mem_cons_self _ _)
    have hcs : sep ∉ cs := fun m => h (List.mem_cons_of_mem _ m)
    simp [splitChars, hc, ih hcs]

theorem getExternalDirectoriesForRestore_eq :
    GetExternalDirectoriesForRestore =
      ["mnt[zoneinfo]:/usr/share/zoneinfo", "mnt[null]:/dev/null", "mnt[random]:/dev/random",
       "mnt[urandom]:/dev/urandom", "mnt[tty]:/dev/tty", "mnt[zero]:/dev/zero",
       "mnt[full]:/dev/full"] := by
  decide

theorem getExternalDirectoriesForCheckpoint_eq :
    GetExternalDirectoriesForCheckpoint =
      ["mnt[/usr/share/zoneinfo]:zoneinfo", "mnt[/dev/null]:null", "mnt[/dev/random]:random",
       "mnt[/dev/urandom]:urandom", "mnt[/dev/tty]:tty", "mnt[/dev/zero]:zero",
       "mnt[/dev/full]:full"] := by
  decide

theorem restoreArgsHead_length (imageDir : String) : (restoreArgsHead imageDir).length = 25 := by
  simp [restoreArgsHead, getExternalDirectoriesForRestore_eq]

theorem inheritFdArgs_length (i : Nat) (l : List String) :
    (inheritFdArgs i l).length = 2 * l.length := by
  induction l generalizing i with
  | nil => rfl
  | cons a t ih => simp [inheritFdArgs, ih]; omega

theorem inheritFdArgs_flag (i : Nat) (l : List String) (j : Nat) (h : j < l.length) :
    (inheritFdArgs i l)[2 * j]? = some "--inherit-fd" := by
  induction l generalizing i j with
  | nil => simp at h
  | cons a t ih =>
    cases j with
    | zero => simp [inheritFdArgs]
    | succ j =>
      have h' : j < t.length := by simpa using h
      have : 2 * (j + 1) = (2 * j + 1) + 1 := by omega
      rw [this]
      simp only [inheritFdArgs, List.getElem?_cons_succ]
      exact ih (i + 1) j h'

theorem inheritFdArgs_value (i : Nat) (l : List String) (j : Nat) (t : String)
    (h : l[j]? = some t) :
    (inheritFdArgs i l)[2 * j + 1]? = some ("fd[" ++ toString (i + j) ++ "]:" ++ t) := by
  induction l generalizing i j with
  | nil => simp at h
  | cons a rest ih =>
    cases j with
    | zero =>
      simp at h
      simp [inheritFdArgs, h]
    | succ j =>
      have h' : rest[j]? = some t := by simpa using h
      have e1 : 2 * (j + 1) + 1 = (2 * j + 1 + 1) + 1 := by omega
      have e2 : i + (j + 1) = (i + 1) + j := by omega
      rw [e1, e2]
      simp only [inheritFdArgs, List.getElem?_cons_succ]
      exact ih (i + 1) j h'

theorem inheritFdArgs_eq_enumFrom (i : Nat) (l : List String) :
    inheritFdArgs i l =
      (l.enumFrom i).flatMap (fun p => ["--inherit-fd", "fd[" ++ toString p.1 ++ "]:" ++ p.2]) := by
  induction l generalizing i with
  | nil => rfl
  | cons a t ih => simp [inheritFdArgs, ih]

theorem openKubePodFiles_ok (w : World) (basePath : String) (kv : List (String × String))
    (fds0 : List String) (files0 : List File) (fds : List String) (files : List File)
    (h : openKubePodFiles w basePath kv fds0 files0 = .ok (fds, files)) :
    fds = fds0 ++ kv.map (fun p => TrimPrefix p.2 "/") ∧
    files = files0 ++ kv.map (fun p => (⟨Join [basePath, p.1]⟩ : File)) := by
  induction kv generalizing fds0 files0 with
  | nil =>
    simp [openKubePodFiles] at h
    simp [h.1, h.2]
  | cons p rest ih =>
    obtain ⟨k, v⟩ := p
    simp only [openKubePodFiles] at h
    cases ho : w.OpenFile (Join [basePath, k]) with
    | some e => simp [ho] at h
    | none =>
      simp only [ho] at h
      have := ih _ _ h
      simp [this.1, this.2]

theorem mem_mapSet (m : GoMap) (k v : String) (p : String × String) (h : p ∈ mapSet m k v) :
    p = (k, v) ∨ p ∈ m := by
  induction m with
  | nil => simp [mapSet] at h; exact Or.inl h
  | cons q rest ih =>
    obtain ⟨k', v'⟩ := q
    simp only [mapSet] at h
    split at h
    · rcases List.mem_cons.1 h with h | h
      · exact Or.inl h
      · exact Or.inr (List.mem_cons_of_mem _ h)
    · rcases List.mem_cons.1 h with h | h
      · exact Or.inr (h ▸ List.mem_cons_self _ _)
      · rcases ih h with h | h
        · exact Or.inl h
        · exact Or.inr (List.mem_cons_of_mem _ h)

theorem mapSet_self (m : GoMap) (k v : String) : (k, v) ∈ mapSet m k v := by
  induction m with
  | nil => simp [mapSet]
  | cons q rest ih =>
    obtain ⟨k', v'⟩ := q
    simp only [mapSet]
    split
    · exact List.mem_cons_self _ _
    · exact List.mem_cons_of_mem _ ih

theorem mapSet_other (m : GoMap) (k v : String) (p : String × String) (h : p ∈ m)
    (hne : p.1 ≠ k) : p ∈ mapSet m k v := by
  induction m with
  | nil => simp at h
  | cons q rest ih =>
    obtain ⟨k', v'⟩ := q
    simp only [mapSet]
    rcases List.mem_cons.1 h with h | h
    · subst h
      have : ¬ k' = k := hne
      simp [this]
    · split
      · exact List.mem_cons_of_mem _ h
      · exact List.mem_cons_of_mem _ (ih h)

theorem kubePodFold_flat (fds : List CapturedFd) (m0 : GoMap) :
    fds.foldl (fun result fd => fd.Files.foldl kubePodStep result) m0 =
      (fds.flatMap CapturedFd.Files).foldl kubePodStep m0 := by
  induction fds generalizing m0 with
  | nil => rfl
  | cons fd rest ih => simp [ih]

theorem kubePodStep_mem (m : GoMap) (file : CapturedFile) (p : String × String)
    (h : p ∈ kubePodStep m file) :
    p ∈ m ∨ (isKubePodFile file ∧ p = (Base file.Path, file.Path)) := by
  unfold kubePodStep at h
  split at h
  · exact Or.inl h
  · rename_i hc
    rcases mem_mapSet _ _ _ _ h with h | h
    · refine Or.inr ⟨?_, h⟩
      simp at hc
      exact ⟨hc.1, hc.2⟩
    · exact Or.inl h

theorem kubePodFold_mem (files : List CapturedFile) (m0 : GoMap) (p : String × String)
    (h : p ∈ files.foldl kubePodStep m0) :
    p ∈ m0 ∨ ∃ file ∈ files, isKubePodFile file ∧ p = (Base file.Path, file.Path) := by
  induction files generalizing m0 with
  | nil => exact Or.inl h
  | cons f rest ih =>
    simp only [List.foldl_cons] at h
    rcases ih _ h with h | ⟨g, hg, hk, hp⟩
    · rcases kubePodStep_mem _ _ _ h with h | ⟨hk, hp⟩
      · exact Or.inl h
      · exact Or.inr ⟨f, List.mem_cons_self _ _, hk, hp⟩
    · exact Or.inr ⟨g, List.mem_cons_of_mem _ hg, hk, hp⟩

theorem kubePodFold_keeps (post : List CapturedFile) (m : GoMap) (f : CapturedFile)
    (hm : (Base f.Path, f.Path) ∈ m)
    (hlast : ∀ g ∈ post, isKubePodFile g → Base g.Path = Base f.Path → g.Path = f.Path) :
    (Base f.Path, f.Path) ∈ post.foldl kubePodStep m := by
  induction post generalizing m with
  | nil => exact hm
  | cons g rest ih =>
    simp only [List.foldl_cons]
    apply ih
    · unfold kubePodStep
      split
      · exact hm
      · rename_i hc
        simp at hc
        by_cases hb : Base g.Path = Base f.Path
        · have := hlast g (List.mem_cons_self _ _) ⟨hc.1, hc.2⟩ hb
          rw [hb, this]
          exact mapSet_self _ _ _
        · exact mapSet_other _ _ _ _ hm (fun h => hb h.symm)
    · intro g' hg'
      exact hlast g' (List.mem_cons_of_mem _ hg')

theorem kubePodFold_last (pre post : List CapturedFile) (f : CapturedFile) (m0 : GoMap)
    (hf : isKubePodFile f)
    (hlast : ∀ g ∈ post, isKubePodFile g → Base g.Path = Base f.Path → g.Path = f.Path) :
    (Base f.Path, f.Path) ∈ (pre ++ f :: post).foldl kubePodStep m0 := by
  rw [List.foldl_append, List.foldl_cons]
  apply kubePodFold_keeps _ _ _ _ hlast
  unfold kubePodStep
  have h1 := hf.1
  have h2 := hf.2
  simp [h1, h2, mapSet_self]

theorem restore_ran_inv (w : World) (imageDir : String) (cmd : Cmd) (err : Option GoError)
    (h : RestoreWithCmd w imageDir = .ran cmd err) :
    ∃ configYAML conf kube fds files,
      w.ReadFile (Join [imageDir, ConfigurationFileName]) = .ok configYAML ∧
      w.UnmarshalOnDisk configYAML = .ok conf ∧
      GetKubePodFilePaths w imageDir = .ok kube ∧
      cmd = ⟨"criu", restoreArgsHead imageDir ++ inheritFdArgs 0 fds, files⟩ ∧
      ((kube.length = 0 ∧ fds = conf.UnixFileDescriptorTrio ∧ files = []) ∨
       (∃ str line rel,
          w.ReadFile "/proc/self/cgroup" = .ok str ∧
          (Split str '\n')[0]? = some line ∧ (Split line ':')[2]? = some rel ∧
          openKubePodFiles w (Join ["/sys/fs/cgroup", rel]) (w.rangeOrder kube)
            conf.UnixFileDescriptorTrio [] = .ok (fds, files))) := by
  unfold RestoreWithCmd at h
  cases h1 : w.MkdirAll "/tmp/.X11-unix" with
  | some e => simp [h1] at h
  | none =>
  cases h2 : w.CopyDir (Join [imageDir, "extraFiles"]) "/" with
  | some e => simp [h1, h2] at h
  | none =>
  cases h3 : w.ReadFile (Join [imageDir, ConfigurationFileName]) with
  | error e => simp [h1, h2, h3] at h
  | ok configYAML =>
  cases h4 : w.UnmarshalOnDisk configYAML with
  | error e => simp [h1, h2, h3, h4] at h
  | ok conf =>
  cases h5 : GetKubePodFilePaths w imageDir with
  | error e => simp [h1, h2, h3, h4, h5] at h
  | ok kube =>
  simp only [h1, h2, h3, h4, h5] at h
  by_cases hk : kube.length > 0
  · simp only [hk, if_true] at h
    cases h6 : w.ReadFile "/proc/self/cgroup" with
    | error e => simp [h6] at h
    | ok str =>
    cases h7 : (Split str '\n')[0]? with
    | none => simp [h6, h7] at h
    | some line =>
    cases h8 : (Split line ':')[2]? with
    | none => simp [h6, h7, h8] at h
    | some rel =>
    cases h9 : openKubePodFiles w (Join ["/sys/fs/cgroup", rel]) (w.rangeOrder kube)
        conf.UnixFileDescriptorTrio [] with
    | error e => simp [h6, h7, h8, h9] at h
    | ok r =>
      obtain ⟨fds, files⟩ := r
      simp only [h6, h7, h8, h9] at h
      simp only [RestoreOutcome.ran.injEq] at h
      exact ⟨configYAML, conf, kube, fds, files, rfl, h4, rfl, by rw [← h.1]; rfl,
        Or.inr ⟨str, line, rel, rfl, h7, h8, h9⟩⟩
  · simp only [hk, if_false] at h
    simp only [RestoreOutcome.ran.injEq] at h
    exact ⟨configYAML, conf, kube, conf.UnixFileDescriptorTrio, [], rfl, h4, rfl,
      by rw [← h.1]; rfl, Or.inl ⟨by omega, rfl, rfl⟩⟩

theorem restore_cgroup_entry (w : World) (imageDir : String) (cmd : Cmd) (err : Option GoError)
    (configYAML : String) (conf : configurationOnDisk)
    (hran : RestoreWithCmd w imageDir = .ran cmd err)
    (hfile : w.ReadFile (Join [imageDir, ConfigurationFileName]) = .ok configYAML)
    (hconf : w.UnmarshalOnDisk configYAML = .ok conf) :
    ∃ kube rel,
      GetKubePodFilePaths w imageDir = .ok kube ∧
      cmd.Name = "criu" ∧
      cmd.Args = restoreArgsHead imageDir ++ inheritFdArgs 0
        (conf.UnixFileDescriptorTrio ++ (w.rangeOrder kube).map (fun p => TrimPrefix p.2 "/")) ∧
      cmd.ExtraFiles = (w.rangeOrder kube).map
        (fun p => (⟨Join [Join ["/sys/fs/cgroup", rel], p.1]⟩ : File)) ∧
      (kube ≠ [] → ∃ str line, w.ReadFile "/proc/self/cgroup" = .ok str ∧
          (Split str '\n')[0]? = some line ∧ (Split line ':')[2]? = some rel) := by
  obtain ⟨configYAML', conf', kube, fds, files, h3, h4, h5, hcmd, hcase⟩ :=
    restore_ran_inv w imageDir cmd err hran
  rw [hfile] at h3
  cases h3
  rw [hconf] at h4
  cases h4
  rcases hcase with ⟨hk, hfds, hfiles⟩ | ⟨str, line, rel, h6, h7, h8, h9⟩
  · have hnil : kube = [] := List.length_eq_zero.1 hk
    have hord : w.rangeOrder kube = [] := by
      have := w.rangeOrder_perm kube
      rw [hnil] at this ⊢
      exact List.Perm.eq_nil this
    refine ⟨kube, "", h5, by rw [hcmd], ?_, ?_, fun hne => absurd hnil hne⟩
    · rw [hcmd, hord, hfds]; simp
    · rw [hcmd, hord, hfiles]; simp
  · obtain ⟨hfds, hfiles⟩ := openKubePodFiles_ok _ _ _ _ _ _ _ h9
    refine ⟨kube, rel, h5, by rw [hcmd], ?_, ?_, fun _ => ⟨str, line, h6, h7, h8⟩⟩
    · rw [hcmd, hfds]
    · rw [hcmd, hfiles]; simp

theorem getKubePodFilePaths_mem (w : World) (imageDir : String) (kube : GoMap)
    (fds : List CapturedFd) (p : String × String)
    (hexp : w.ExploreFds imageDir = .ok fds)
    (h : GetKubePodFilePaths w imageDir = .ok kube) (hp : p ∈ kube) :
    ∃ fd ∈ fds, ∃ file ∈ fd.Files, isKubePodFile file ∧ p = (Base file.Path, file.Path) := by
  unfold GetKubePodFilePaths at h
  rw [hexp] at h
  simp only [Except.ok.injEq] at h
  rw [kubePodFold_flat] at h
  rw [← h] at hp
  rcases kubePodFold_mem _ _ _ hp with hp | ⟨file, hf, hk, hpe⟩
  · simp at hp
  · obtain ⟨fd, hfd, hfile⟩ := List.mem_flatMap.1 hf
    exact ⟨fd, hfd, file, hfile, hk, hpe⟩

theorem getKubePodFilePaths_explored (w : World) (imageDir : String) (kube : GoMap)
    (h : GetKubePodFilePaths w imageDir = .ok kube) :
    ∃ fds, w.ExploreFds imageDir = .ok fds := by
  unfold GetKubePodFilePaths at h
  cases hexp : w.ExploreFds imageDir with
  | error e => simp [hexp] at h
  | ok fds => exact ⟨fds, rfl⟩

/-! ## The image-directory probe -/

/-- C1: `shouldRestore` answers true exactly when `imageDir` is non-empty, the directory
was listed without error and one of its entries has a name ending in `.img` (and then
the error is nil); it answers false with no error when `imageDir` is empty or the
directory does not exist, and false with the error itself for every other failure of
the directory read. -/
theorem shouldRestore_spec (w : World) (cfg : Configuration) :
    ((shouldRestore w cfg).1 = true ↔
      cfg.ImageDir ≠ "" ∧ (w.ReadDir cfg.ImageDir).2 = none ∧
        ∃ name ∈ (w.ReadDir cfg.ImageDir).1, ∃ stem : String, name = stem ++ ".img") ∧
    ((shouldRestore w cfg).1 = true → (shouldRestore w cfg).2 = none) ∧
    (cfg.ImageDir = "" → shouldRestore w cfg = (false, none)) ∧
    (osIsNotExist (w.ReadDir cfg.ImageDir).2 = true → shouldRestore w cfg = (false, none)) ∧
    (∀ e, cfg.ImageDir ≠ "" → (w.ReadDir cfg.ImageDir).2 = some e →
      osIsNotExist (some e) = false → shouldRestore w cfg = (false, some e)) := by
  have hany : ∀ entries : List String,
      entries.any (fun name => HasSuffix name ".img") = true ↔
        ∃ name ∈ entries, ∃ stem : String, name = stem ++ ".img" := by
    intro entries
    simp only [List.any_eq_true, hasSuffix_iff]
  unfold shouldRestore
  by_cases hdir : cfg.ImageDir = ""
  · simp [hdir]
  · simp only [hdir, if_false]
    cases herr : (w.ReadDir cfg.ImageDir).2 with
    | none =>
      by_cases h : (w.ReadDir cfg.ImageDir).1.any (fun name => HasSuffix name ".img") = true
      · have h' := (hany _).1 h
        simp [osIsNotExist, h, h', hdir]
      · have h' : ¬ ∃ name ∈ (w.ReadDir cfg.ImageDir).1, ∃ stem : String, name = stem ++ ".img" :=
          fun hx => h ((hany _).2 hx)
        simp [osIsNotExist, h, h', hdir]
    | some e =>
      by_cases hne : osIsNotExist (some e) = true
      · simp [hne, hdir]
      · simp [hne, hdir]

/-! ## The supervisor on SIGTERM -/

/-- What `Run.Run` does once SIGTERM is received with `imageDir` configured: the code
of the `case syscall.SIGTERM` branch, with the calls made up to it. -/
theorem run_on_sigterm (w : World) (r : Run) (pid : Nat) (cfg : Configuration) (url : String)
    (hc : (ReadConfiguration w r.ConfigPath).1 = cfg)
    (hu : cfg.NodeStateServerURL ++ "/nodes/" ++ w.Getenv "KUBERNETES_NODE_NAME" = url)
    (hread : ∀ e, (ReadConfiguration w r.ConfigPath).2 = some e → errorsIsNotExist e = true)
    (hprobe : shouldRestore w cfg = (false, none))
    (hargs : r.Args ≠ [])
    (hwrite : w.WriteFile "/proc/sys/kernel/ns_last_pid" "9000" = none)
    (hstart : w.Start r.Args = .ok pid)
    (himg : cfg.ImageDir ≠ "")
    (hsig : w.Received = some SIGTERM) :
    Run.Run w r =
      (if cfg.NodeStateServerURL ≠ "" then
        match w.HttpGet url with
        | .error e =>
          ⟨[.writeFile "/proc/sys/kernel/ns_last_pid" "9000", .start r.Args, .notify SIGTERM,
              .httpGet url],
            .returned (some (.wrap "failed to get node state: " e))⟩
        | .ok resp =>
        match resp.Decoded with
        | .error e =>
          ⟨[.writeFile "/proc/sys/kernel/ns_last_pid" "9000", .start r.Args, .notify SIGTERM,
              .httpGet url],
            .returned (some (.wrap "failed to decode node state: " e))⟩
        | .ok response =>
        if response.State ≠ NodeStateShuttingDown then
          match w.Signal pid SIGTERM with
          | some e =>
            ⟨[.writeFile "/proc/sys/kernel/ns_last_pid" "9000", .start r.Args, .notify SIGTERM,
                .httpGet url, .signal pid SIGTERM],
              .returned (some (.wrap "failed to send SIGTERM to the process: " e))⟩
          | none =>
            ⟨[.writeFile "/proc/sys/kernel/ns_last_pid" "9000", .start r.Args, .notify SIGTERM,
                .httpGet url, .signal pid SIGTERM, .wait pid],
              .returned (w.Wait pid)⟩
        else
          match w.TakeCheckpoint pid cfg with
          | some e =>
            ⟨[.writeFile "/proc/sys/kernel/ns_last_pid" "9000", .start r.Args, .notify SIGTERM,
                .httpGet url, .takeCheckpoint pid cfg],
              .returned (some (.wrap "failed to take checkpoint: " e))⟩
          | none =>
            ⟨[.writeFile "/proc/sys/kernel/ns_last_pid" "9000", .start r.Args, .notify SIGTERM,
                .httpGet url, .takeCheckpoint pid cfg, .wait pid],
              .returned (w.Wait pid)⟩
      else
        match w.TakeCheckpoint pid cfg with
        | some e =>
          ⟨[.writeFile "/proc/sys/kernel/ns_last_pid" "9000", .start r.Args, .notify SIGTERM,
              .takeCheckpoint pid cfg],
            .returned (some (.wrap "failed to take checkpoint: " e))⟩
        | none =>
          ⟨[.writeFile "/proc/sys/kernel/ns_last_pid" "9000", .start r.Args, .notify SIGTERM,
              .takeCheckpoint pid cfg, .wait pid],
            .returned (w.Wait pid)⟩) := by
  have hfatal : (match (ReadConfiguration w r.ConfigPath).2 with
      | some e => if !errorsIsNotExist e then some e else none
      | none => none) = none := by
    cases h : (ReadConfiguration w r.ConfigPath).2 with
    | none => rfl
    | some e => simp [hread e h]
  have hlen : r.Args.length ≠ 0 := by
    cases hr : r.Args with
    | nil => exact absurd hr hargs
    | cons a t => simp
  unfold Run.Run
  simp only [hc, hfatal, hprobe, hlen, hwrite, hstart, himg, hsig, hu]
  simp [himg]

/-- C2 fails as stated: the oracle answers `unknown`, the forwarding of SIGTERM to the
child fails with `operation not permitted`, and `Run.Run` returns that error without
waiting for the child. -/
theorem run_sigterm_forward_failure :
    Run.Run (oracleWorld 200 "unknown" (some (.lib "operation not permitted" false))) sleepRun =
      ⟨[.writeFile "/proc/sys/kernel/ns_last_pid" "9000", .start ["/bin/sleep", "100"],
        .notify SIGTERM, .httpGet "http://oracle:9376/nodes/node-a", .signal 9001 SIGTERM],
       .returned (some (.wrap "failed to send SIGTERM to the process: "
         (.lib "operation not permitted" false)))⟩ ∧
    decide (Event.wait 9001 ∈
      (Run.Run (oracleWorld 200 "unknown" (some (.lib "operation not permitted" false)))
        sleepRun).trace) = false := by
  decide

/-- C2, amended: when SIGTERM is received with `imageDir` configured, `TakeCheckpoint` is
invoked if and only if `nodeStateServerURL` is empty or the oracle's reply decodes to the
state `shutting-down`.  For every other decoded state SIGTERM is sent to the child and
`TakeCheckpoint` is not invoked; when the sending succeeds the supervisor waits for the
child and returns the result of the wait, and when it fails `Run.Run` returns that
error without waiting. -/
theorem run_sigterm_decision (w : World) (r : Run) (pid : Nat)
    (hread : ∀ e, (ReadConfiguration w r.ConfigPath).2 = some e → errorsIsNotExist e = true)
    (hprobe : shouldRestore w (ReadConfiguration w r.ConfigPath).1 = (false, none))
    (hargs : r.Args ≠ [])
    (hwrite : w.WriteFile "/proc/sys/kernel/ns_last_pid" "9000" = none)
    (hstart : w.Start r.Args = .ok pid)
    (himg : (ReadConfiguration w r.ConfigPath).1.ImageDir ≠ "")
    (hsig : w.Received = some SIGTERM) :
    (invokesTakeCheckpoint (Run.Run w r) = true ↔
      (ReadConfiguration w r.ConfigPath).1.NodeStateServerURL = "" ∨
      ∃ resp response,
        w.HttpGet ((ReadConfiguration w r.ConfigPath).1.NodeStateServerURL ++ "/nodes/" ++
          w.Getenv "KUBERNETES_NODE_NAME") = .ok resp ∧
        resp.Decoded = .ok response ∧ response.State = "shutting-down") ∧
    (∀ resp response,
      (ReadConfiguration w r.ConfigPath).1.NodeStateServerURL ≠ "" →
      w.HttpGet ((ReadConfiguration w r.ConfigPath).1.NodeStateServerURL ++ "/nodes/" ++
          w.Getenv "KUBERNETES_NODE_NAME") = .ok resp →
      resp.Decoded = .ok response → response.State ≠ "shutting-down" →
      invokesTakeCheckpoint (Run.Run w r) = false ∧
      Event.signal pid SIGTERM ∈ (Run.Run w r).trace ∧
      (w.Signal pid SIGTERM = none →
        Event.wait pid ∈ (Run.Run w r).trace ∧ (Run.Run w r).result = .returned (w.Wait pid)) ∧
      (∀ e, w.Signal pid SIGTERM = some e →
        Event.wait pid ∉ (Run.Run w r).trace ∧
        (Run.Run w r).result =
          .returned (some (.wrap "failed to send SIGTERM to the process: " e)))) := by
  rw [run_on_sigterm w r pid _ _ rfl rfl hread hprobe hargs hwrite hstart himg hsig]
  generalize (ReadConfiguration w r.ConfigPath).1 = cfg
  generalize cfg.NodeStateServerURL ++ "/nodes/" ++ w.Getenv "KUBERNETES_NODE_NAME" = url
  refine ⟨?_, ?_⟩
  · by_cases hurl : cfg.NodeStateServerURL = ""
    · cases htc : w.TakeCheckpoint pid cfg <;> simp [hurl, htc, invokesTakeCheckpoint]
    · cases hget : w.HttpGet url with
      | error e => simp [hurl, hget, invokesTakeCheckpoint]
      | ok resp =>
        cases hdec : resp.Decoded with
        | error e => simp [hurl, hget, hdec, invokesTakeCheckpoint]
        | ok response =>
          by_cases hst : response.State = "shutting-down"
          · cases htc : w.TakeCheckpoint pid cfg <;>
              simp [hurl, hget, hdec, hst, htc, invokesTakeCheckpoint, NodeStateShuttingDown]
          · cases hsg : w.Signal pid SIGTERM <;>
              simp [hurl, hget, hdec, hst, hsg, invokesTakeCheckpoint, NodeStateShuttingDown]
  · intro resp response hurl hget hdec hst
    cases hsg : w.Signal pid SIGTERM <;>
      simp [hurl, hget, hdec, hst, hsg, invokesTakeCheckpoint, NodeStateShuttingDown]

/-- C2, amended, at a concrete run: the oracle answers `unknown` and the forwarding
succeeds. -/
theorem run_sigterm_decision_witness :
    invokesTakeCheckpoint (Run.Run (oracleWorld 200 "unknown" none) sleepRun) = false ∧
    Event.wait 9001 ∈ (Run.Run (oracleWorld 200 "unknown" none) sleepRun).trace :=
  have h := (run_sigterm_decision (oracleWorld 200 "unknown" none) sleepRun 9001
    (fun _ h => nomatch h) (by decide) (by decide) (by decide) (by rfl) (by decide)
    (by rfl)).2 ⟨200, .ok ⟨"node-a", "unknown"⟩⟩ ⟨"node-a", "unknown"⟩ (by decide) rfl rfl
    (by decide)
  ⟨h.1, (h.2.2.1 rfl).1⟩

/-- C3 fails as stated: the oracle answers with status 500 and a body that decodes to the
state `shutting-down`; `Run.Run` takes the checkpoint and returns no error. -/
theorem run_non_2xx_reply_checkpoints :
    Run.Run (oracleWorld 500 "shutting-down" none) sleepRun =
      ⟨[.writeFile "/proc/sys/kernel/ns_last_pid" "9000", .start ["/bin/sleep", "100"],
        .notify SIGTERM, .httpGet "http://oracle:9376/nodes/node-a",
        .takeCheckpoint 9001 { ImageDir := "/ckpt", NodeStateServerURL := "http://oracle:9376" },
        .wait 9001],
       .returned none⟩ ∧
    invokesTakeCheckpoint (Run.Run (oracleWorld 500 "shutting-down" none) sleepRun) = true := by
  decide

/-- C3, amended: when SIGTERM is received with `imageDir` and the oracle configured, a
request that fails and a body that does not decode each make `Run.Run` return an error
(`failed to get node state`, `failed to decode node state`) without invoking
`TakeCheckpoint`.  The status code of a reply is not examined: whatever it is, a reply
whose body decodes leads to `TakeCheckpoint` exactly when the decoded state is
`shutting-down`. -/
theorem run_oracle_failure (w : World) (r : Run) (pid : Nat)
    (hread : ∀ e, (ReadConfiguration w r.ConfigPath).2 = some e → errorsIsNotExist e = true)
    (hprobe : shouldRestore w (ReadConfiguration w r.ConfigPath).1 = (false, none))
    (hargs : r.Args ≠ [])
    (hwrite : w.WriteFile "/proc/sys/kernel/ns_last_pid" "9000" = none)
    (hstart : w.Start r.Args = .ok pid)
    (himg : (ReadConfiguration w r.ConfigPath).1.ImageDir ≠ "")
    (hsig : w.Received = some SIGTERM)
    (hurl : (ReadConfiguration w r.ConfigPath).1.NodeStateServerURL ≠ "") :
    (∀ e,
      w.HttpGet ((ReadConfiguration w r.ConfigPath).1.NodeStateServerURL ++ "/nodes/" ++
          w.Getenv "KUBERNETES_NODE_NAME") = .error e →
      (Run.Run w r).result = .returned (some (.wrap "failed to get node state: " e)) ∧
      invokesTakeCheckpoint (Run.Run w r) = false) ∧
    (∀ resp e,
      w.HttpGet ((ReadConfiguration w r.ConfigPath).1.NodeStateServerURL ++ "/nodes/" ++
          w.Getenv "KUBERNETES_NODE_NAME") = .ok resp →
      resp.Decoded = .error e →
      (Run.Run w r).result = .returned (some (.wrap "failed to decode node state: " e)) ∧
      invokesTakeCheckpoint (Run.Run w r) = false) ∧
    (∀ resp response,
      w.HttpGet ((ReadConfiguration w r.ConfigPath).1.NodeStateServerURL ++ "/nodes/" ++
          w.Getenv "KUBERNETES_NODE_NAME") = .ok resp →
      resp.Decoded = .ok response →
      (invokesTakeCheckpoint (Run.Run w r) = true ↔ response.State = "shutting-down")) := by
  rw [run_on_sigterm w r pid _ _ rfl rfl hread hprobe hargs hwrite hstart himg hsig]
  revert hurl
  generalize (ReadConfiguration w r.ConfigPath).1 = cfg
  generalize cfg.NodeStateServerURL ++ "/nodes/" ++ w.Getenv "KUBERNETES_NODE_NAME" = url
  intro hurl
  refine ⟨?_, ?_, ?_⟩
  · intro e hget
    simp [hurl, hget, invokesTakeCheckpoint]
  · intro resp e hget hdec
    simp [hurl, hget, hdec, invokesTakeCheckpoint]
  · intro resp response hget hdec
    by_cases hst : response.State = "shutting-down"
    · cases htc : w.TakeCheckpoint pid cfg <;>
        simp [hurl, hget, hdec, hst, htc, invokesTakeCheckpoint, NodeStateShuttingDown]
    · cases hsg : w.Signal pid SIGTERM <;>
        simp [hurl, hget, hdec, hst, hsg, invokesTakeCheckpoint, NodeStateShuttingDown]

/-- C3, amended, at a concrete run: the request to the oracle is refused. -/
theorem run_oracle_failure_witness :
    (Run.Run { oracleWorld 200 "unknown" none with
        HttpGet := fun _ => .error (.lib "connection refused" false) } sleepRun).result =
      .returned (some (.wrap "failed to get node state: " (.lib "connection refused" false))) ∧
    invokesTakeCheckpoint (Run.Run { oracleWorld 200 "unknown" none with
        HttpGet := fun _ => .error (.lib "connection refused" false) } sleepRun) = false :=
  (run_oracle_failure { oracleWorld 200 "unknown" none with
        HttpGet := fun _ => .error (.lib "connection refused" false) } sleepRun 9001
    (fun _ h => nomatch h) (by decide) (by decide) (by decide) (by rfl) (by decide)
    (by rfl) (by decide)).1 (.lib "connection refused" false) rfl

/-- C4, the code at the base URL `http://oracle:9376` and the node name `node-a`: the
supervisor requests `http://oracle:9376/nodes/node-a`, which is not
`http://oracle:9376/v1/nodes/node-a`; from the path `/nodes/node-a` the server's
`ServeHTTP` extracts the name `nodes/node-a`, and from `/v1/nodes/node-a` the name
`node-a`. -/
theorem run_oracle_url :
    (Run.Run (oracleWorld 200 "shutting-down" none) sleepRun).trace =
      [.writeFile "/proc/sys/kernel/ns_last_pid" "9000", .start ["/bin/sleep", "100"],
        .notify SIGTERM, .httpGet "http://oracle:9376/nodes/node-a",
        .takeCheckpoint 9001 { ImageDir := "/ckpt", NodeStateServerURL := "http://oracle:9376" },
        .wait 9001] ∧
    decide ("http://oracle:9376/nodes/node-a" = "http://oracle:9376" ++ "/v1/nodes/" ++ "node-a")
      = false ∧
    nodeNameOfPath "/nodes/node-a" = "nodes/node-a" ∧
    nodeNameOfPath "/v1/nodes/node-a" = "node-a" := by
  decide

/-! ## The supervisor's mode -/

/-- C5: once the configuration is loaded (the file read, or absent), `Run.Run` takes its
mode from `shouldRestore`.  When that is true the only call made is
`RestoreWithCmd(imageDir)`, no child is started, and the result is that of
`RestoreWithCmd`, an error being wrapped with `failed to restore`; this holds for every
command vector.  When it is false and the command vector is empty, `Run.Run` returns
the error that a command is required, having made no call: nothing is written to
`ns_last_pid` and nothing is started. -/
theorem run_mode_selection (w : World) (r : Run)
    (hread : ∀ e, (ReadConfiguration w r.ConfigPath).2 = some e → errorsIsNotExist e = true) :
    (shouldRestore w (ReadConfiguration w r.ConfigPath).1 = (true, none) →
      (Run.Run w r).trace =
        [.restoreWithCmd (ReadConfiguration w r.ConfigPath).1.ImageDir
          (RestoreWithCmd w (ReadConfiguration w r.ConfigPath).1.ImageDir)] ∧
      spawnsChild (Run.Run w r) = false ∧
      (Run.Run w r).result =
        (match RestoreWithCmd w (ReadConfiguration w r.ConfigPath).1.ImageDir with
         | .failed e => .returned (some (.wrap "failed to restore: " e))
         | .panicked => .panicked
         | .ran _ (some e) => .returned (some (.wrap "failed to restore: " e))
         | .ran _ none => .returned none)) ∧
    (shouldRestore w (ReadConfiguration w r.ConfigPath).1 = (false, none) → r.Args = [] →
      Run.Run w r =
        ⟨[], .returned (some (.lib ("command is required when there is no checkpoint to " ++
          "restore, i.e. --image-dir is not given or empty") false))⟩) := by
  have hfatal : (match (ReadConfiguration w r.ConfigPath).2 with
      | some e => if !errorsIsNotExist e then some e else none
      | none => none) = none := by
    cases h : (ReadConfiguration w r.ConfigPath).2 with
    | none => rfl
    | some e => simp [hread e h]
  constructor
  · intro h
    unfold Run.Run
    simp only [hfatal, h]
    simp [spawnsChild]
  · intro h hargs
    unfold Run.Run
    simp only [hfatal, h, hargs]
    simp

/-- C5 at two concrete runs without a command: one with an image, one without. -/
theorem run_mode_selection_witness :
    (Run.Run (restoreWorld stdioTrio podFiles "0::/kubepods.slice/pod2\n") ⟨[], "/etc/crik/config.yaml"⟩).trace =
      [.restoreWithCmd "/ckpt" (.ran podRestoreCmd none)] ∧
    (Run.Run quietWorld ⟨[], "/etc/crik/config.yaml"⟩).trace = [] :=
  ⟨((run_mode_selection (restoreWorld stdioTrio podFiles "0::/kubepods.slice/pod2\n")
      ⟨[], "/etc/crik/config.yaml"⟩ (fun _ h => nomatch h)).1 (by decide)).1.trans (by decide),
   congrArg RunOutcome.trace
     ((run_mode_selection quietWorld ⟨[], "/etc/crik/config.yaml"⟩
        (fun e h => by
          have : e = .wrap "failed to read configuration file: " (.lib "no such file or directory" true) :=
            (Option.some.inj h).symm
          rw [this]; rfl)).2 (by decide) rfl)⟩

/-! ## The three links of the pre-dump action -/

theorem readTrio_three (w : World) (fdDir : String) (trio : List String)
    (h : readTrio w fdDir [0, 1, 2] = .ok trio) :
    ∃ l0 l1 l2, trio = [l0, l1, l2] ∧
      w.Readlink (Join [fdDir, "0"]) = .ok l0 ∧
      w.Readlink (Join [fdDir, "1"]) = .ok l1 ∧
      w.Readlink (Join [fdDir, "2"]) = .ok l2 := by
  have t0 : toString (0 : Nat) = "0" := by decide
  have t1 : toString (1 : Nat) = "1" := by decide
  have t2 : toString (2 : Nat) = "2" := by decide
  simp only [readTrio, t0, t1, t2] at h
  cases h0 : w.Readlink (Join [fdDir, "0"]) with
  | error e => simp [h0] at h
  | ok l0 =>
    cases h1 : w.Readlink (Join [fdDir, "1"]) with
    | error e => simp [h0, h1] at h
    | ok l1 =>
      cases h2 : w.Readlink (Join [fdDir, "2"]) with
      | error e => simp [h0, h1, h2] at h
      | ok l2 =>
        simp [h0, h1, h2] at h
        exact ⟨l0, l1, l2, h.symm, rfl, rfl, rfl⟩

theorem readTrio_fails (w : World) (fdDir : String) (i : Nat) (hi : i < 3) (e : GoError)
    (h : w.Readlink (Join [fdDir, toString i]) = .error e) :
    ∃ e', readTrio w fdDir [0, 1, 2] = .error e' := by
  cases hr : readTrio w fdDir [0, 1, 2] with
  | error e' => exact ⟨e', rfl⟩
  | ok trio =>
    obtain ⟨l0, l1, l2, -, h0, h1, h2⟩ := readTrio_three w fdDir trio hr
    have t0 : toString (0 : Nat) = "0" := by decide
    have t1 : toString (1 : Nat) = "1" := by decide
    have t2 : toString (2 : Nat) = "2" := by decide
    rcases i with _ | _ | _ | i
    · rw [t0, h0] at h; cases h
    · rw [t1, h1] at h; cases h
    · rw [t2, h2] at h; cases h
    · omega

/-! ## The restore driver's inherited descriptors -/

/-- The pairing of arguments and extra files for a trio of three entries: the command has
`3 + n` arguments `--inherit-fd` for `n` extra files, and the argument of every index
`i >= 3` carries the path of a captured cgroup file while the handle at position `i - 3`
was opened under the base name of that path. -/
theorem restore_alignment_of_trio (w : World) (imageDir : String) (cmd : Cmd)
    (err : Option GoError) (configYAML : String) (conf : configurationOnDisk)
    (hran : RestoreWithCmd w imageDir = .ran cmd err)
    (hfile : w.ReadFile (Join [imageDir, ConfigurationFileName]) = .ok configYAML)
    (hconf : w.UnmarshalOnDisk configYAML = .ok conf)
    (htrio : conf.UnixFileDescriptorTrio.length = 3) :
    cmd.Args.length = 25 + 2 * (3 + cmd.ExtraFiles.length) ∧
    ∀ i, 3 ≤ i → i < 3 + cmd.ExtraFiles.length →
      ∃ fds str line rel, ∃ fd ∈ fds, ∃ file ∈ fd.Files,
        w.ExploreFds imageDir = .ok fds ∧
        HasPrefix file.Path "/sys/fs/cgroup/kubepods.slice" = true ∧ file.Type_ = "REG" ∧
        w.ReadFile "/proc/self/cgroup" = .ok str ∧
        (Split str '\n')[0]? = some line ∧ (Split line ':')[2]? = some rel ∧
        cmd.Args[25 + 2 * i]? = some "--inherit-fd" ∧
        cmd.Args[25 + 2 * i + 1]? =
          some ("fd[" ++ toString i ++ "]:" ++ TrimPrefix file.Path "/") ∧
        cmd.ExtraFiles[i - 3]? =
          some ⟨Join [Join ["/sys/fs/cgroup", rel], Base file.Path]⟩ := by
  obtain ⟨kube, rel, hk, -, hargs, hextra, hcg⟩ :=
    restore_cgroup_entry w imageDir cmd err configYAML conf hran hfile hconf
  have hlen : cmd.ExtraFiles.length = (w.rangeOrder kube).length := by rw [hextra]; simp
  refine ⟨?_, ?_⟩
  · rw [hargs, List.length_append, restoreArgsHead_length, inheritFdArgs_length, hlen]
    simp [htrio]
  · intro i h3 hi
    obtain ⟨fds, hexp⟩ := getKubePodFilePaths_explored w imageDir kube hk
    have hj : i - 3 < (w.rangeOrder kube).length := by omega
    obtain ⟨p, hp⟩ : ∃ p, (w.rangeOrder kube)[i - 3]? = some p :=
      ⟨_, List.getElem?_eq_getElem hj⟩
    have hmem : p ∈ kube :=
      (w.rangeOrder_perm kube).mem_iff.1 (List.getElem?_mem hp)
    obtain ⟨fd, hfd, file, hfile', hkf, hpe⟩ :=
      getKubePodFilePaths_mem w imageDir kube fds p hexp hk hmem
    have hne : kube ≠ [] := List.ne_nil_of_mem hmem
    obtain ⟨str, line, h6, h7, h8⟩ := hcg hne
    refine ⟨fds, str, line, rel, fd, hfd, file, hfile', hexp, hkf.1, hkf.2, h6, h7, h8, ?_, ?_, ?_⟩
    · rw [hargs, List.getElem?_append_right (by rw [restoreArgsHead_length]; omega),
        restoreArgsHead_length]
      have : 25 + 2 * i - 25 = 2 * i := by omega
      rw [this]
      apply inheritFdArgs_flag
      simp [htrio]; omega
    · rw [hargs, List.getElem?_append_right (by rw [restoreArgsHead_length]; omega),
        restoreArgsHead_length]
      have : 25 + 2 * i + 1 - 25 = 2 * i + 1 := by omega
      rw [this]
      have hv := inheritFdArgs_value 0
        (conf.UnixFileDescriptorTrio ++ (w.rangeOrder kube).map (fun p => TrimPrefix p.2 "/"))
        i (TrimPrefix file.Path "/") (by
          rw [List.getElem?_append_right (by omega), htrio, List.getElem?_map, hp, hpe]
          rfl)
      simpa using hv
    · rw [hextra, List.getElem?_map, hp, hpe]
      rfl

/-- C6: when `RestoreWithCmd` starts the engine on a configuration that `PreDump`
persisted (its `unixFileDescriptorTrio` is what the loop of `PreDump` over the
descriptors 0, 1 and 2 of the checkpointed process returned), the trio has three
entries, the command has `3 + n` arguments `--inherit-fd` for `n` extra files (they
follow the 25 leading arguments), and for every index `i >= 3` the argument of that
index is `fd[i]:` followed by the path, without its leading slash, of a captured regular
file under `/sys/fs/cgroup/kubepods.slice`, while the handle at position `i - 3` of the
extra files was opened at the directory `RestoreWithCmd` takes for the current cgroup
(`/sys/fs/cgroup` joined with the third field of the first line of `/proc/self/cgroup`)
joined with the base name of that same captured path. -/
theorem restore_inherit_fd_alignment (w : World) (imageDir : String) (cmd : Cmd)
    (err : Option GoError) (configYAML : String) (conf : configurationOnDisk)
    (w0 : World) (pid : Int)
    (hran : RestoreWithCmd w imageDir = .ran cmd err)
    (hfile : w.ReadFile (Join [imageDir, ConfigurationFileName]) = .ok configYAML)
    (hconf : w.UnmarshalOnDisk configYAML = .ok conf)
    (hpersist : readTrio w0 (Join ["/proc", toString pid, "fd"]) [0, 1, 2] =
      .ok conf.UnixFileDescriptorTrio) :
    conf.UnixFileDescriptorTrio.length = 3 ∧
    cmd.Args.length = 25 + 2 * (3 + cmd.ExtraFiles.length) ∧
    ∀ i, 3 ≤ i → i < 3 + cmd.ExtraFiles.length →
      ∃ fds str line rel, ∃ fd ∈ fds, ∃ file ∈ fd.Files,
        w.ExploreFds imageDir = .ok fds ∧
        HasPrefix file.Path "/sys/fs/cgroup/kubepods.slice" = true ∧ file.Type_ = "REG" ∧
        w.ReadFile "/proc/self/cgroup" = .ok str ∧
        (Split str '\n')[0]? = some line ∧ (Split line ':')[2]? = some rel ∧
        cmd.Args[25 + 2 * i]? = some "--inherit-fd" ∧
        cmd.Args[25 + 2 * i + 1]? =
          some ("fd[" ++ toString i ++ "]:" ++ TrimPrefix file.Path "/") ∧
        cmd.ExtraFiles[i - 3]? =
          some ⟨Join [Join ["/sys/fs/cgroup", rel], Base file.Path]⟩ := by
  have htrio : conf.UnixFileDescriptorTrio.length = 3 := by
    obtain ⟨l0, l1, l2, h, -⟩ := readTrio_three w0 _ _ hpersist
    rw [h]
    rfl
  exact ⟨htrio, restore_alignment_of_trio w imageDir cmd err configYAML conf hran hfile hconf htrio⟩

/-- C6 at a concrete restore: the trio read from the descriptors of the process 9001 and
two captured cgroup files. -/
theorem restore_inherit_fd_alignment_witness :
    RestoreWithCmd (restoreWorld stdioTrio podFiles "0::/kubepods.slice/pod2\n") "/ckpt" =
      .ran podRestoreCmd none ∧
    podRestoreCmd.Args[25 + 2 * 4 + 1]? =
      some "fd[4]:sys/fs/cgroup/kubepods.slice/pod1/cpu.max" ∧
    podRestoreCmd.ExtraFiles[4 - 3]? = some ⟨"/sys/fs/cgroup/kubepods.slice/pod2/cpu.max"⟩ ∧
    podRestoreCmd.Args.length = 25 + 2 * (3 + podRestoreCmd.ExtraFiles.length) :=
  ⟨by decide, by decide, by decide,
    (restore_inherit_fd_alignment (restoreWorld stdioTrio podFiles "0::/kubepods.slice/pod2\n")
      "/ckpt" podRestoreCmd none "persisted"
      { Configuration := { ImageDir := "/ckpt" }, UnixFileDescriptorTrio := stdioTrio }
      dumpWorld 9001
      (by decide) (by rfl) (by rfl) (by rfl)).2.1⟩

/-- C7 fails as stated: of two captured cgroup files with the same base name,
`pod1/memory.max` and `pod1/app/memory.max`, only the later one is kept under the key
`memory.max`; the restore command has one `--inherit-fd` argument beyond the trio and no
argument for the path `sys/fs/cgroup/kubepods.slice/pod1/memory.max`. -/
theorem restore_same_base_name_dropped :
    RestoreWithCmd (restoreWorld stdioTrio sameBaseFiles "0::/kubepods.slice/pod2\n") "/ckpt" =
      .ran
        { Name := "criu",
          Args := ckptArgsHead ++
            ["--inherit-fd", "fd[0]:/dev/null", "--inherit-fd", "fd[1]:pipe:[101]",
             "--inherit-fd", "fd[2]:pipe:[102]",
             "--inherit-fd", "fd[3]:sys/fs/cgroup/kubepods.slice/pod1/app/memory.max"],
          ExtraFiles := [⟨"/sys/fs/cgroup/kubepods.slice/pod2/memory.max"⟩] }
        none ∧
    (ckptArgsHead ++
      ["--inherit-fd", "fd[0]:/dev/null", "--inherit-fd", "fd[1]:pipe:[101]",
       "--inherit-fd", "fd[2]:pipe:[102]",
       "--inherit-fd", "fd[3]:sys/fs/cgroup/kubepods.slice/pod1/app/memory.max"]).any
      (fun a => HasSuffix a ":sys/fs/cgroup/kubepods.slice/pod1/memory.max") = false := by
  decide

/-- C7, amended: when `RestoreWithCmd` starts the engine on a persisted configuration
whose trio has three entries, every captured regular file under
`/sys/fs/cgroup/kubepods.slice` that no later captured cgroup file replaces (none with
the same base name and another path follows it in the enumeration) has an argument
`--inherit-fd fd[i]:<its path without the leading slash>` for some `i >= 3`, and the
extra files have a handle at position `i - 3`, opened under the file's base name in the
directory `RestoreWithCmd` takes for the current cgroup: `/sys/fs/cgroup` joined with
the third field of the first line of `/proc/self/cgroup`, which was read. -/
theorem restore_covers_captured_file (w : World) (imageDir : String) (cmd : Cmd)
    (err : Option GoError) (configYAML : String) (conf : configurationOnDisk)
    (fds : List CapturedFd) (pre post : List CapturedFile) (f : CapturedFile)
    (hran : RestoreWithCmd w imageDir = .ran cmd err)
    (hfile : w.ReadFile (Join [imageDir, ConfigurationFileName]) = .ok configYAML)
    (hconf : w.UnmarshalOnDisk configYAML = .ok conf)
    (htrio : conf.UnixFileDescriptorTrio.length = 3)
    (hexp : w.ExploreFds imageDir = .ok fds)
    (hsplit : fds.flatMap CapturedFd.Files = pre ++ f :: post)
    (hpath : HasPrefix f.Path "/sys/fs/cgroup/kubepods.slice" = true)
    (hreg : f.Type_ = "REG")
    (hlast : ∀ g ∈ post, HasPrefix g.Path "/sys/fs/cgroup/kubepods.slice" = true →
      g.Type_ = "REG" → Base g.Path = Base f.Path → g.Path = f.Path) :
    ∃ i, 3 ≤ i ∧ i < 3 + cmd.ExtraFiles.length ∧
      cmd.Args[25 + 2 * i]? = some "--inherit-fd" ∧
      cmd.Args[25 + 2 * i + 1]? =
        some ("fd[" ++ toString i ++ "]:" ++ TrimPrefix f.Path "/") ∧
      ∃ str line rel,
        w.ReadFile "/proc/self/cgroup" = .ok str ∧
        (Split str '\n')[0]? = some line ∧ (Split line ':')[2]? = some rel ∧
        cmd.ExtraFiles[i - 3]? =
          some ⟨Join [Join ["/sys/fs/cgroup", rel], Base f.Path]⟩ := by
  obtain ⟨kube, rel, hk, -, hargs, hextra, hcg⟩ :=
    restore_cgroup_entry w imageDir cmd err configYAML conf hran hfile hconf
  have hmem : (Base f.Path, f.Path) ∈ kube := by
    unfold GetKubePodFilePaths at hk
    rw [hexp] at hk
    simp only [Except.ok.injEq] at hk
    rw [kubePodFold_flat, hsplit] at hk
    rw [← hk]
    exact kubePodFold_last pre post f [] ⟨hpath, hreg⟩
      (fun g hg hgk => hlast g hg hgk.1 hgk.2)
  have hord : (Base f.Path, f.Path) ∈ w.rangeOrder kube :=
    (w.rangeOrder_perm kube).mem_iff.2 hmem
  obtain ⟨j, hj⟩ := List.getElem?_of_mem hord
  have hjlt : j < (w.rangeOrder kube).length := by
    rcases Nat.lt_or_ge j (w.rangeOrder kube).length with h | h
    · exact h
    · rw [List.getElem?_eq_none h] at hj
      cases hj
  have hlen : cmd.ExtraFiles.length = (w.rangeOrder kube).length := by rw [hextra]; simp
  obtain ⟨str, line, h6, h7, h8⟩ := hcg (List.ne_nil_of_mem hmem)
  refine ⟨j + 3, by omega, by omega, ?_, ?_, str, line, rel, h6, h7, h8, ?_⟩
  · rw [hargs, List.getElem?_append_right (by rw [restoreArgsHead_length]; omega),
      restoreArgsHead_length]
    have : 25 + 2 * (j + 3) - 25 = 2 * (j + 3) := by omega
    rw [this]
    apply inheritFdArgs_flag
    simp [htrio]; omega
  · rw [hargs, List.getElem?_append_right (by rw [restoreArgsHead_length]; omega),
      restoreArgsHead_length]
    have : 25 + 2 * (j + 3) + 1 - 25 = 2 * (j + 3) + 1 := by omega
    rw [this]
    have hv := inheritFdArgs_value 0
      (conf.UnixFileDescriptorTrio ++ (w.rangeOrder kube).map (fun p => TrimPrefix p.2 "/"))
      (j + 3) (TrimPrefix f.Path "/") (by
        rw [List.getElem?_append_right (by omega), htrio, List.getElem?_map]
        simp [hj])
    simpa using hv
  · rw [hextra, List.getElem?_map]
    simp [hj]

/-- C7, amended, at a concrete restore: the captured file `pod1/memory.max`. -/
theorem restore_covers_captured_file_witness :
    ∃ i, 3 ≤ i ∧ i < 3 + podRestoreCmd.ExtraFiles.length ∧
      podRestoreCmd.Args[25 + 2 * i]? = some "--inherit-fd" ∧
      podRestoreCmd.Args[25 + 2 * i + 1]? =
        some ("fd[" ++ toString i ++ "]:" ++
          TrimPrefix "/sys/fs/cgroup/kubepods.slice/pod1/memory.max" "/") ∧
      ∃ str line rel,
        (restoreWorld stdioTrio podFiles "0::/kubepods.slice/pod2\n").ReadFile
          "/proc/self/cgroup" = .ok str ∧
        (Split str '\n')[0]? = some line ∧ (Split line ':')[2]? = some rel ∧
        podRestoreCmd.ExtraFiles[i - 3]? =
          some ⟨Join [Join ["/sys/fs/cgroup", rel],
            Base "/sys/fs/cgroup/kubepods.slice/pod1/memory.max"]⟩ :=
  restore_covers_captured_file (restoreWorld stdioTrio podFiles "0::/kubepods.slice/pod2\n")
    "/ckpt" podRestoreCmd none "persisted"
    { Configuration := { ImageDir := "/ckpt" }, UnixFileDescriptorTrio := stdioTrio }
    [⟨podFiles⟩] []
    [⟨"/etc/hosts", "REG"⟩, ⟨"/sys/fs/cgroup/kubepods.slice/pod1/cpu.max", "REG"⟩]
    ⟨"/sys/fs/cgroup/kubepods.slice/pod1/memory.max", "REG"⟩
    (by decide) (by rfl) (by rfl) (by rfl) (by rfl) (by rfl) (by decide) (by rfl) (by decide)

/-- C8, the code at a cgroup path with a colon: for the first line
`0::/kubepods.slice/pod2/cri:7` the third field of the split at every colon is
`/kubepods.slice/pod2/cri`, so the replacement file is opened in
`/sys/fs/cgroup/kubepods.slice/pod2/cri` and not in the directory of everything after
the second colon, `/sys/fs/cgroup/kubepods.slice/pod2/cri:7`. -/
theorem restore_cgroup_path_cut_at_colon :
    RestoreWithCmd
        (restoreWorld stdioTrio [⟨"/sys/fs/cgroup/kubepods.slice/pod1/memory.max", "REG"⟩]
          "0::/kubepods.slice/pod2/cri:7\n")
        "/ckpt" =
      .ran
        { Name := "criu",
          Args := ckptArgsHead ++
            ["--inherit-fd", "fd[0]:/dev/null", "--inherit-fd", "fd[1]:pipe:[101]",
             "--inherit-fd", "fd[2]:pipe:[102]",
             "--inherit-fd", "fd[3]:sys/fs/cgroup/kubepods.slice/pod1/memory.max"],
          ExtraFiles := [⟨"/sys/fs/cgroup/kubepods.slice/pod2/cri/memory.max"⟩] }
        none ∧
    (Split "0::/kubepods.slice/pod2/cri:7" ':')[2]? = some "/kubepods.slice/pod2/cri" ∧
    Join [Join ["/sys/fs/cgroup", "/kubepods.slice/pod2/cri:7"], "memory.max"] =
      "/sys/fs/cgroup/kubepods.slice/pod2/cri:7/memory.max" := by
  decide

/-- The relative cgroup path of a colon-free first line: when `/proc/self/cgroup` starts
with the line `<id>:<controllers>:<path>` and neither field contains a colon or a
newline, every extra file of the restore command was opened in the directory
`/sys/fs/cgroup` joined with `<path>`. -/
theorem restore_cgroup_base_path (w : World) (imageDir : String) (cmd : Cmd)
    (err : Option GoError) (id ctl path rest : String)
    (hran : RestoreWithCmd w imageDir = .ran cmd err)
    (hcg : w.ReadFile "/proc/self/cgroup" = .ok (id ++ ":" ++ ctl ++ ":" ++ path ++ "\n" ++ rest))
    (hid : ':' ∉ id.data ∧ '\n' ∉ id.data)
    (hctl : ':' ∉ ctl.data ∧ '\n' ∉ ctl.data)
    (hpath : ':' ∉ path.data ∧ '\n' ∉ path.data) :
    (Split (id ++ ":" ++ ctl ++ ":" ++ path) ':')[2]? = some path ∧
    ∀ (j : Nat) (file : File), cmd.ExtraFiles[j]? = some file →
      ∃ k, file.Name = Join [Join ["/sys/fs/cgroup", path], k] := by
  have hline : Split (id ++ ":" ++ ctl ++ ":" ++ path) ':' = [id, ctl, path] := by
    unfold Split
    have : (id ++ ":" ++ ctl ++ ":" ++ path).data =
        id.data ++ ':' :: (ctl.data ++ ':' :: path.data) := by
      simp [String.data_append]
    rw [this, splitChars_append_sep _ _ _ hid.1, splitChars_append_sep _ _ _ hctl.1,
      splitChars_of_not_mem _ _ hpath.1]
    rfl
  have hfirst : (Split (id ++ ":" ++ ctl ++ ":" ++ path ++ "\n" ++ rest) '\n')[0]? =
      some (id ++ ":" ++ ctl ++ ":" ++ path) := by
    unfold Split
    have hd : (id ++ ":" ++ ctl ++ ":" ++ path ++ "\n" ++ rest).data =
        (id ++ ":" ++ ctl ++ ":" ++ path).data ++ '\n' :: rest.data := by
      simp [String.data_append]
    have hnl : '\n' ∉ (id ++ ":" ++ ctl ++ ":" ++ path).data := by
      simp [String.data_append, hid.2, hctl.2, hpath.2]
    rw [hd, splitChars_append_sep _ _ _ hnl]
    simp only [List.map_cons, List.getElem?_cons_zero]
  refine ⟨by rw [hline]; rfl, ?_⟩
  intro j file hj
  obtain ⟨configYAML, conf, kube, fds, files, h3, h4, -, -, -⟩ :=
    restore_ran_inv w imageDir cmd err hran
  obtain ⟨kube, rel, -, -, -, hextra, hrel⟩ :=
    restore_cgroup_entry w imageDir cmd err configYAML conf hran h3 h4
  rw [hextra, List.getElem?_map] at hj
  cases hp : (w.rangeOrder kube)[j]? with
  | none => rw [hp] at hj; cases hj
  | some p =>
    rw [hp] at hj
    have hmem : p ∈ kube := (w.rangeOrder_perm kube).mem_iff.1 (List.getElem?_mem hp)
    obtain ⟨str, line, h6, h7, h8⟩ := hrel (List.ne_nil_of_mem hmem)
    rw [hcg] at h6
    cases h6
    rw [hfirst] at h7
    cases h7
    rw [hline] at h8
    cases h8
    simp only [Option.map_some', Option.some.injEq] at hj
    exact ⟨p.1, by rw [← hj]; rfl⟩

/-- The colon-free line `0::/kubepods.slice/pod2` at a concrete restore. -/
theorem restore_cgroup_base_path_witness :
    (Split ("0" ++ ":" ++ "" ++ ":" ++ "/kubepods.slice/pod2") ':')[2]? =
      some "/kubepods.slice/pod2" :=
  (restore_cgroup_base_path (restoreWorld stdioTrio podFiles "0::/kubepods.slice/pod2\n")
    "/ckpt" podRestoreCmd none "0" "" "/kubepods.slice/pod2" ""
    (by decide) (by rfl) (by decide) (by decide) (by decide)).1

/-! ## The external-mount table -/

/-- C9: entry `i` of the list rendered for the checkpoint is
`mnt[<pathInCheckpoint>]:<name>` and entry `i` of the list rendered for the restore is
`mnt[<name>]:<pathInRestore>`, both for entry `i` of the table; the two lists have the
length of the table, whose names are zoneinfo, null, random, urandom, tty, zero, full
in this order.  Both lists are also given in full. -/
theorem external_directories_pairing :
    (∀ (i : Nat) (d : DirectoryMount), DirectoryMounts[i]? = some d →
      GetExternalDirectoriesForCheckpoint[i]? =
        some ("mnt[" ++ d.PathInCheckpoint ++ "]:" ++ d.Name) ∧
      GetExternalDirectoriesForRestore[i]? =
        some ("mnt[" ++ d.Name ++ "]:" ++ d.PathInRestore)) ∧
    GetExternalDirectoriesForCheckpoint.length = DirectoryMounts.length ∧
    GetExternalDirectoriesForRestore.length = DirectoryMounts.length ∧
    DirectoryMounts.map DirectoryMount.Name =
      ["zoneinfo", "null", "random", "urandom", "tty", "zero", "full"] ∧
    GetExternalDirectoriesForCheckpoint =
      ["mnt[/usr/share/zoneinfo]:zoneinfo", "mnt[/dev/null]:null", "mnt[/dev/random]:random",
       "mnt[/dev/urandom]:urandom", "mnt[/dev/tty]:tty", "mnt[/dev/zero]:zero",
       "mnt[/dev/full]:full"] ∧
    GetExternalDirectoriesForRestore =
      ["mnt[zoneinfo]:/usr/share/zoneinfo", "mnt[null]:/dev/null", "mnt[random]:/dev/random",
       "mnt[urandom]:/dev/urandom", "mnt[tty]:/dev/tty", "mnt[zero]:/dev/zero",
       "mnt[full]:/dev/full"] := by
  have hc : GetExternalDirectoriesForCheckpoint =
      DirectoryMounts.map (fun d => "mnt[" ++ d.PathInCheckpoint ++ "]:" ++ d.Name) := by decide
  have hr : GetExternalDirectoriesForRestore =
      DirectoryMounts.map (fun d => "mnt[" ++ d.Name ++ "]:" ++ d.PathInRestore) := by decide
  refine ⟨?_, by decide, by decide, by decide, by decide, by decide⟩
  intro i d h
  rw [hc, hr, List.getElem?_map, List.getElem?_map, h]
  exact ⟨rfl, rfl⟩

/-! ## The restore command -/

/-- C10: the command `RestoreWithCmd` runs is `criu` with the arguments `restore`,
`--images-dir d`, `--tcp-established`, `--file-locks`, `--evasive-devices`,
`--tcp-close`, `--manage-cgroups=ignore`, `-v4`, `--log-file restore.log`, then
`--external mnt[<name>]:<pathInRestore>` for each entry of the mount table in table
order (the first being `mnt[zoneinfo]:/usr/share/zoneinfo`), then
`--inherit-fd fd[i]:<target>` for each inherited descriptor in index order, the
inherited descriptors being the entries of the persisted trio followed by one target
per extra file; for a trio of three entries the vector is written out, with the trio
at the indices 0, 1 and 2. -/
theorem restore_argument_vector (w : World) (imageDir : String) (cmd : Cmd)
    (err : Option GoError) (configYAML : String) (conf : configurationOnDisk)
    (hran : RestoreWithCmd w imageDir = .ran cmd err)
    (hfile : w.ReadFile (Join [imageDir, ConfigurationFileName]) = .ok configYAML)
    (hconf : w.UnmarshalOnDisk configYAML = .ok conf) :
    cmd.Name = "criu" ∧
    cmd.Args[11]? = some "--external" ∧
    cmd.Args[12]? = some "mnt[zoneinfo]:/usr/share/zoneinfo" ∧
    ∃ targets : List String,
      targets.length = cmd.ExtraFiles.length ∧
      cmd.Args =
        ["restore", "--images-dir", imageDir, "--tcp-established", "--file-locks",
          "--evasive-devices", "--tcp-close", "--manage-cgroups=ignore", "-v4",
          "--log-file", "restore.log"] ++
        DirectoryMounts.flatMap
          (fun d => ["--external", "mnt[" ++ d.Name ++ "]:" ++ d.PathInRestore]) ++
        (conf.UnixFileDescriptorTrio ++ targets).enum.flatMap
          (fun p => ["--inherit-fd", "fd[" ++ toString p.1 ++ "]:" ++ p.2]) ∧
      ∀ t0 t1 t2, conf.UnixFileDescriptorTrio = [t0, t1, t2] →
        cmd.Args =
          ["restore", "--images-dir", imageDir, "--tcp-established", "--file-locks",
            "--evasive-devices", "--tcp-close", "--manage-cgroups=ignore", "-v4",
            "--log-file", "restore.log",
            "--external", "mnt[zoneinfo]:/usr/share/zoneinfo",
            "--external", "mnt[null]:/dev/null",
            "--external", "mnt[random]:/dev/random",
            "--external", "mnt[urandom]:/dev/urandom",
            "--external", "mnt[tty]:/dev/tty",
            "--external", "mnt[zero]:/dev/zero",
            "--external", "mnt[full]:/dev/full",
            "--inherit-fd", "fd[0]:" ++ t0,
            "--inherit-fd", "fd[1]:" ++ t1,
            "--inherit-fd", "fd[2]:" ++ t2] ++
          (targets.enumFrom 3).flatMap
            (fun p => ["--inherit-fd", "fd[" ++ toString p.1 ++ "]:" ++ p.2]) := by
  obtain ⟨kube, rel, -, hname, hargs, hextra, -⟩ :=
    restore_cgroup_entry w imageDir cmd err configYAML conf hran hfile hconf
  have hmounts : DirectoryMounts.flatMap
      (fun d => ["--external", "mnt[" ++ d.Name ++ "]:" ++ d.PathInRestore]) =
      GetExternalDirectoriesForRestore.flatMap (fun d => ["--external", d]) := by decide
  have hhead : restoreArgsHead imageDir =
      ["restore", "--images-dir", imageDir, "--tcp-established", "--file-locks",
        "--evasive-devices", "--tcp-close", "--manage-cgroups=ignore", "-v4",
        "--log-file", "restore.log"] ++
      DirectoryMounts.flatMap
        (fun d => ["--external", "mnt[" ++ d.Name ++ "]:" ++ d.PathInRestore]) := by
    rw [hmounts]; rfl
  refine ⟨hname, ?_, ?_, (w.rangeOrder kube).map (fun p => TrimPrefix p.2 "/"), ?_, ?_, ?_⟩
  · rw [hargs]; simp [restoreArgsHead, getExternalDirectoriesForRestore_eq]
  · rw [hargs]; simp [restoreArgsHead, getExternalDirectoriesForRestore_eq]
  · rw [hextra]; simp
  · rw [hargs, hhead, inheritFdArgs_eq_enumFrom]; rfl
  · intro t0 t1 t2 ht
    rw [hargs, ht, inheritFdArgs_eq_enumFrom]
    simp [restoreArgsHead, getExternalDirectoriesForRestore_eq, List.enumFrom]
    exact ⟨rfl, rfl, rfl⟩

/-- C10 at a concrete restore. -/
theorem restore_argument_vector_witness :
    RestoreWithCmd (restoreWorld stdioTrio podFiles "0::/kubepods.slice/pod2\n") "/ckpt" =
      .ran podRestoreCmd none ∧
    podRestoreCmd.Args[12]? = some "mnt[zoneinfo]:/usr/share/zoneinfo" :=
  ⟨by decide,
    (restore_argument_vector (restoreWorld stdioTrio podFiles "0::/kubepods.slice/pod2\n")
      "/ckpt" podRestoreCmd none "persisted"
      { Configuration := { ImageDir := "/ckpt" }, UnixFileDescriptorTrio := stdioTrio }
      (by decide) (by rfl) (by rfl)).2.2.1⟩

/-! ## The configuration file -/

/-- C15: when reading the configuration file fails because the file does not exist,
`Run.Run` goes on with the empty configuration: with no command it returns the error
that a command is required, and with one it writes `ns_last_pid`, starts the child and,
`imageDir` being empty, waits for it and returns the result of the wait.  When the read
fails for another reason, or the content does not decode, `Run.Run` makes no call at all
and returns the error, wrapped by `ReadConfiguration` and again by `Run.Run`; the image
directory is not read and no child is started. -/
theorem run_configuration_file (w : World) (r : Run) :
    (∀ e, w.ReadFile r.ConfigPath = .error e → errorsIsNotExist e = true →
      (ReadConfiguration w r.ConfigPath).1 = {} ∧
      Run.Run w r =
        (if r.Args.length = 0 then
          ⟨[], .returned (some (.lib ("command is required when there is no checkpoint to " ++
            "restore, i.e. --image-dir is not given or empty") false))⟩
         else
          match w.WriteFile "/proc/sys/kernel/ns_last_pid" "9000" with
          | some e' =>
            ⟨[.writeFile "/proc/sys/kernel/ns_last_pid" "9000"],
              .returned (some (.wrap "failed to write to /proc/sys/kernel/ns_last_pid: " e'))⟩
          | none =>
            match w.Start r.Args with
            | .error e' =>
              ⟨[.writeFile "/proc/sys/kernel/ns_last_pid" "9000", .start r.Args],
                .returned (some (.wrap "failed to start command: " e'))⟩
            | .ok pid =>
              ⟨[.writeFile "/proc/sys/kernel/ns_last_pid" "9000", .start r.Args, .wait pid],
                .returned (w.Wait pid)⟩)) ∧
    (∀ e, w.ReadFile r.ConfigPath = .error e → errorsIsNotExist e = false →
      Run.Run w r =
        ⟨[], .returned (some (.wrap "failed to read configuration: "
          (.wrap "failed to read configuration file: " e)))⟩) ∧
    (∀ b msg, w.ReadFile r.ConfigPath = .ok b → w.UnmarshalConfiguration b = .error msg →
      Run.Run w r =
        ⟨[], .returned (some (.wrap "failed to read configuration: "
          (.wrap "failed to unmarshal configuration: " (.lib msg false))))⟩) := by
  refine ⟨?_, ?_, ?_⟩
  · intro e he hne
    have hrc : ReadConfiguration w r.ConfigPath =
        ({}, some (.wrap "failed to read configuration file: " e)) := by
      simp [ReadConfiguration, he]
    refine ⟨by rw [hrc], ?_⟩
    unfold Run.Run
    simp only [hrc, errorsIsNotExist, hne]
    simp only [shouldRestore]
    by_cases hargs : r.Args.length = 0
    · simp [hargs]
    · cases hw : w.WriteFile "/proc/sys/kernel/ns_last_pid" "9000" with
      | some e' => simp [hargs, hw]
      | none =>
        cases hs : w.Start r.Args with
        | error e' => simp [hargs, hw, hs]
        | ok pid => simp [hargs, hw, hs]
  · intro e he hne
    have hrc : ReadConfiguration w r.ConfigPath =
        ({}, some (.wrap "failed to read configuration file: " e)) := by
      simp [ReadConfiguration, he]
    unfold Run.Run
    simp [hrc, errorsIsNotExist, hne]
  · intro b msg hb hm
    have hrc : ReadConfiguration w r.ConfigPath =
        ({}, some (.wrap "failed to unmarshal configuration: " (.lib msg false))) := by
      simp [ReadConfiguration, hb, hm]
    unfold Run.Run
    simp [hrc, errorsIsNotExist]

/-! ## The node-state server -/

theorem lookup_cons_if (es : GoMap) (k v n : String) :
    List.lookup n ((k, v) :: es) = if n = k then some v else List.lookup n es := by
  by_cases h : n = k
  · subst h
    simp [List.lookup]
  · have hb : (n == k) = false := by simpa using h
    simp [List.lookup, hb, h]

theorem lookup_mapSet (m : GoMap) (k v n : String) :
    (mapSet m k v).lookup n = if n = k then some v else m.lookup n := by
  induction m with
  | nil => simp [mapSet, lookup_cons_if]
  | cons q rest ih =>
    obtain ⟨k', v'⟩ := q
    simp only [mapSet]
    by_cases hk : k' = k
    · subst hk
      by_cases h : n = k' <;> simp [lookup_cons_if, h]
    · by_cases h : n = k'
      · subst h
        simp [lookup_cons_if, hk]
      · simp [lookup_cons_if, hk, h, ih]

theorem lookup_filter_ne (m : GoMap) (name n : String) :
    (m.filter (fun p => p.1 ≠ name)).lookup n = if n = name then none else m.lookup n := by
  induction m with
  | nil => simp
  | cons q rest ih =>
    obtain ⟨k', v'⟩ := q
    simp only [ne_eq, decide_not] at ih ⊢
    by_cases hk : k' = name
    · subst hk
      have hf : List.filter (fun p => !decide (p.1 = k')) ((k', v') :: rest) =
          List.filter (fun p => !decide (p.1 = k')) rest := by simp [List.filter]
      rw [hf, ih]
      by_cases h : n = k' <;> simp [h, lookup_cons_if]
    · by_cases h : n = k'
      · subst h
        simp [List.filter, hk, lookup_cons_if]
      · simp [List.filter, hk, lookup_cons_if, h, ih]

/-- C14, the code on a server made by `NewServer`: a `GET` for a named node panics in
`GetNodeState`, because the embedded `*sync.RWMutex` is nil, and so do `SetNodeState`
and `DeleteNodeState`; only the replies that need no lock, 400 for a missing name and
405 for another method, are given. -/
theorem newServer_get_panics :
    NewServer.ServeHTTP ⟨"GET", "/v1/nodes/node-a"⟩ = .panicked ∧
    NewServer.SetNodeState "node-a" NodeStateShuttingDown = .panicked ∧
    NewServer.DeleteNodeState "node-a" = .panicked ∧
    NewServer.ServeHTTP ⟨"GET", "/v1/nodes/"⟩ =
      .returned ⟨400, .text "node query parameter is missing"⟩ ∧
    NewServer.ServeHTTP ⟨"POST", "/v1/nodes/node-a"⟩ =
      .returned ⟨405, .text "method not allowed"⟩ := by
  decide

/-- The replies of a server whose mutex is allocated: 400 when the name left after
stripping `/v1/nodes/` and the surrounding slashes is empty, otherwise 405 when the
method is not `GET`, otherwise 200 with the name and its stored state, `unknown` when
the map has none; `SetNodeState` stores the state of one name and `DeleteNodeState`
removes it, both leaving the other names as they are. -/
theorem serveHTTP_with_mutex (s : Server) (h : s.RWMutex = some ()) :
    (∀ r : Request, s.ServeHTTP r =
      .returned
        (if nodeNameOfPath r.Path = "" then ⟨400, .text "node query parameter is missing"⟩
         else if r.Method ≠ "GET" then ⟨405, .text "method not allowed"⟩
         else ⟨200, .json { Name := nodeNameOfPath r.Path,
                            State := (s.nodes.lookup (nodeNameOfPath r.Path)).getD "unknown" }⟩)) ∧
    (∀ name state, ∃ s', s.SetNodeState name state = .returned s' ∧ s'.RWMutex = some () ∧
      ∀ n, s'.nodes.lookup n = if n = name then some state else s.nodes.lookup n) ∧
    (∀ name, ∃ s', s.DeleteNodeState name = .returned s' ∧ s'.RWMutex = some () ∧
      ∀ n, s'.nodes.lookup n = if n = name then none else s.nodes.lookup n) := by
  refine ⟨?_, ?_, ?_⟩
  · intro r
    unfold Server.ServeHTTP Server.GetNodeState
    by_cases hn : nodeNameOfPath r.Path = ""
    · simp [hn]
    · by_cases hm : r.Method = "GET"
      · cases hl : s.nodes.lookup (nodeNameOfPath r.Path) <;>
          simp [hn, hm, h, hl, NodeStateUnknown]
      · simp [hn, hm]
  · intro name state
    refine ⟨{ s with nodes := mapSet s.nodes name state }, ?_, h, ?_⟩
    · simp [Server.SetNodeState, h]
    · intro n
      exact lookup_mapSet _ _ _ _
  · intro name
    refine ⟨{ s with nodes := s.nodes.filter (fun p => p.1 ≠ name) }, ?_, h, ?_⟩
    · simp [Server.DeleteNodeState, h]
    · intro n
      exact lookup_filter_ne _ _ _

/-- The replies of a server with an allocated mutex and an empty map. -/
theorem serveHTTP_with_mutex_witness :
    Server.ServeHTTP ⟨[], some ()⟩ ⟨"GET", "/v1/nodes/node-a"⟩ =
      .returned ⟨200, .json { Name := "node-a", State := "unknown" }⟩ :=
  ((serveHTTP_with_mutex ⟨[], some ()⟩ rfl).1 ⟨"GET", "/v1/nodes/node-a"⟩).trans (by decide)

/-! ## The pre-dump action -/

theorem copyAdditional_writes (fuel : Nat) (imageDir : String) (paths : List String)
    (fs : FS) (trace : List FsEvent) (out : PreDumpOutcome)
    (h : copyAdditional fuel imageDir fs trace paths = some out) :
    out.trace.filter FsEvent.isWrite = trace.filter FsEvent.isWrite := by
  induction paths generalizing fs trace with
  | nil =>
    simp only [copyAdditional, Option.some.injEq] at h
    rw [← h]
  | cons p rest ih =>
    simp only [copyAdditional] at h
    split at h
    · exact ih _ _ h
    · split at h
      · cases h
      · simp only [Option.some.injEq] at h
        rw [← h]
        simp [FsEvent.isWrite]
      · rw [ih _ _ h]
        simp [FsEvent.isWrite]

/-- A run of `PreDump`: when it succeeds the three links were read and the one file
written is `imageDir/configuration.yaml` with these targets; when a link cannot be read
it returns an error and has written no file. -/
theorem preDump_run (fuel : Nat) (w : World) (fs : FS) (a : Actions) :
    (∀ out, a.PreDump fuel w fs = some out → out.err = none →
      ∃ l0 l1 l2 confYAML,
        w.Readlink (Join [Join ["/proc", toString a.pid, "fd"], "0"]) = .ok l0 ∧
        w.Readlink (Join [Join ["/proc", toString a.pid, "fd"], "1"]) = .ok l1 ∧
        w.Readlink (Join [Join ["/proc", toString a.pid, "fd"], "2"]) = .ok l2 ∧
        w.MarshalOnDisk
          { Configuration := a.configuration, UnixFileDescriptorTrio := [l0, l1, l2] } =
            .ok confYAML ∧
        out.trace.filter FsEvent.isWrite =
          [.writeFile (Join [a.configuration.ImageDir, ConfigurationFileName]) confYAML 0o600]) ∧
    (∀ i e, i < 3 →
      w.Readlink (Join [Join ["/proc", toString a.pid, "fd"], toString i]) = .error e →
      ∃ out, a.PreDump fuel w fs = some out ∧ out.err ≠ none ∧
        out.trace.filter FsEvent.isWrite = []) := by
  constructor
  · intro out h herr
    unfold Actions.PreDump at h
    cases hr : readTrio w (Join ["/proc", toString a.pid, "fd"]) [0, 1, 2] with
    | error e =>
      simp only [hr, Option.some.injEq] at h
      rw [← h] at herr
      cases herr
    | ok trio =>
      obtain ⟨l0, l1, l2, htrio, h0, h1, h2⟩ := readTrio_three w _ trio hr
      subst htrio
      simp only [hr] at h
      cases hm : w.MarshalOnDisk
          { Configuration := a.configuration, UnixFileDescriptorTrio := [l0, l1, l2] } with
      | error e =>
        simp only [hm, Option.some.injEq] at h
        rw [← h] at herr
        cases herr
      | ok confYAML =>
        simp only [hm] at h
        refine ⟨l0, l1, l2, confYAML, h0, h1, h2, hm, ?_⟩
        split at h
        · simp only [Option.some.injEq] at h
          rw [← h] at herr
          cases herr
        · split at h
          · simp only [Option.some.injEq] at h
            rw [← h] at herr
            cases herr
          · rw [copyAdditional_writes _ _ _ _ _ _ h]
            simp [FsEvent.isWrite]
  · intro i e hi h
    obtain ⟨e', he'⟩ := readTrio_fails w _ i hi e h
    refine ⟨⟨a.configuration.InotifyIncompatiblePaths.foldl
        (fun fs p => fs.RemoveAll (resolve p)) fs,
      a.configuration.InotifyIncompatiblePaths.map FsEvent.removeAll, some e'⟩, ?_, ?_, ?_⟩
    · unfold Actions.PreDump
      simp only [he']
    · simp
    · simp [FsEvent.isWrite]

/-- C12, the code at a directory: `/data` has the mode 0750 and its subdirectory the
mode 0700, and after `PreDump` succeeds their copies below `/ckpt/extraFiles` have the
mode 0, the permission bits of `d.Type()`; the files are copied with their bytes and
modes, and the missing path is skipped. -/
theorem preDump_directory_mode :
    dumpFS.lookup ["data"] = some (.dir 0o750) ∧
    dumpFS.lookup ["data", "sub"] = some (.dir 0o700) ∧
    (dumpActions.PreDump 100 dumpWorld dumpFS).map (fun out => out.err) = some none ∧
    (dumpActions.PreDump 100 dumpWorld dumpFS).map
        (fun out => out.fs.lookup ["ckpt", "extraFiles", "data"]) = some (some (.dir 0)) ∧
    (dumpActions.PreDump 100 dumpWorld dumpFS).map
        (fun out => out.fs.lookup ["ckpt", "extraFiles", "data", "sub"]) =
      some (some (.dir 0)) ∧
    (dumpActions.PreDump 100 dumpWorld dumpFS).map
        (fun out => out.fs.lookup ["ckpt", "extraFiles", "data", "a.txt"]) =
      some (some (.file "hello" 0o644)) ∧
    (dumpActions.PreDump 100 dumpWorld dumpFS).map
        (fun out => out.fs.lookup ["ckpt", "extraFiles", "data", "sub", "c"]) =
      some (some (.file "sea" 0o444)) ∧
    (dumpActions.PreDump 100 dumpWorld dumpFS).map
        (fun out => out.fs.lookup ["ckpt", "extraFiles", "missing"]) = some none := by
  decide

/-! ## Facts about the file system and the copy of a tree -/

theorem lookup_cons_ite {α β : Type} [BEq α] [LawfulBEq α] [DecidableEq α]
    (es : List (α × β)) (k : α) (v : β) (n : α) : List.lookup n ((k, v) :: es) = if n = k then some v else List.lookup n es := by
  by_cases h : n = k
  · subst h
    simp [List.lookup]
  · have hb : (n == k) = false := by simpa using h
    simp [List.lookup, hb, h]

theorem lookup_set (fs : FS) (p q : Path) (e : Entry) :
    (fs.set p e).lookup q = if q = p then some e else fs.lookup q := by
  unfold FS.lookup FS.set
  exact lookup_cons_ite fs.entries p e q

theorem lookup_mem {α β : Type} [BEq α] [LawfulBEq α] [DecidableEq α] (es : List (α × β)) (k : α) (v : β)
    (h : List.lookup k es = some v) : (k, v) ∈ es := by
  induction es with
  | nil => simp [List.lookup] at h
  | cons q rest ih =>
    obtain ⟨k', v'⟩ := q
    rw [lookup_cons_ite] at h
    by_cases hk : k = k'
    · subst hk
      simp at h
      subst h
      exact List.mem_cons_self _ _
    · simp [hk] at h
      exact List.mem_cons_of_mem _ (ih h)

theorem mem_lookup {α β : Type} [BEq α] [LawfulBEq α] [DecidableEq α] (es : List (α × β)) (k : α) (v : β)
    (h : (k, v) ∈ es) : ∃ v', List.lookup k es = some v' := by
  induction es with
  | nil => simp at h
  | cons q rest ih =>
    obtain ⟨k', v'⟩ := q
    rw [lookup_cons_ite]
    by_cases hk : k = k'
    · exact ⟨v', by simp [hk]⟩
    · rcases List.mem_cons.1 h with h | h
      · exact absurd (congrArg Prod.fst h) hk
      · obtain ⟨v'', hv⟩ := ih h
        exact ⟨v'', by simp [hk, hv]⟩

/-- What `mkdirAllFrom` does: entries that exist stay as they are, and an entry changes
only at a path from below `done` down to `done ++ todo`. -/
theorem mkdirAllFrom_spec (perm : Nat) (todo : List String) (fs : FS) (done : Path) :
    (∀ q e, fs.lookup q = some e → (FS.mkdirAllFrom perm fs done todo).1.lookup q = some e) ∧
    (∀ q, ¬ q <+: done ++ todo → (FS.mkdirAllFrom perm fs done todo).1.lookup q = fs.lookup q) := by
  induction todo generalizing fs done with
  | nil => simp [FS.mkdirAllFrom]
  | cons name rest ih =>
    have hpre : done ++ [name] ++ rest = done ++ name :: rest := by simp
    simp only [FS.mkdirAllFrom]
    cases hl : fs.lookup (done ++ [name]) with
    | none =>
      simp only []
      have ih' := ih (fs.set (done ++ [name]) (.dir (fs.masked perm))) (done ++ [name])
      rw [hpre] at ih'
      constructor
      · intro q e hq
        apply ih'.1
        rw [lookup_set]
        by_cases hqe : q = done ++ [name]
        · rw [hqe, hl] at hq; cases hq
        · simp [hqe, hq]
      · intro q hq
        rw [ih'.2 q hq, lookup_set]
        have : q ≠ done ++ [name] := by
          intro h
          apply hq
          rw [h]
          exact ⟨rest, by simp⟩
        simp [this]
    | some e =>
      cases e with
      | dir m =>
        simp only []
        have ih' := ih fs (done ++ [name])
        rw [hpre] at ih'
        exact ih'
      | file c m => simp


theorem openTrunc_ok (fs fs2 : FS) (p : Path) (perm : Nat)
    (h : fs.openTrunc p perm = (fs2, none)) : ∃ m, fs2 = fs.set p (.file "" m) := by
  unfold FS.openTrunc at h
  split at h
  · split at h
    · cases h
    · rename_i mode _
      cases h
      exact ⟨mode, rfl⟩
    · cases h
      exact ⟨_, rfl⟩
  · cases h
  · cases h

/-- What a successful call of the walk function does to the file system: an entry
changes only at the destination path or above it, every other entry that exists stays
as it is, and a regular file that is visited is at the destination with its bytes and
mode. -/
theorem copyEntry_spec (src dst : Path) (fs fs' : FS) (w : Path) (b : Bool)
    (h : copyEntry src dst fs w b = (fs', none)) :
    (∀ q, ¬ q <+: dst ++ w.drop src.length → fs'.lookup q = fs.lookup q) ∧
    (∀ q e, fs.lookup q = some e → q ≠ dst ++ w.drop src.length → fs'.lookup q = some e) ∧
    (b = false → ∀ c m, fs.lookup w = some (.file c m) → w ≠ dst ++ w.drop src.length →
      fs'.lookup (dst ++ w.drop src.length) = some (.file c m)) := by
  unfold copyEntry at h
  simp only [] at h
  cases b with
  | true =>
    simp only [if_true] at h
    have hs := mkdirAllFrom_spec 0 (dst ++ w.drop src.length) fs []
    have hfs : fs' = (FS.mkdirAllFrom 0 fs [] (dst ++ w.drop src.length)).1 := by
      unfold FS.MkdirAll at h
      rw [h]
    simp only [List.nil_append] at hs
    refine ⟨?_, ?_, ?_⟩
    · intro q hq
      rw [hfs]
      exact hs.2 q hq
    · intro q e hq _
      rw [hfs]
      exact hs.1 q e hq
    · intro hb
      cases hb
  | false =>
    simp only [Bool.false_eq_true, if_false] at h
    have hs := mkdirAllFrom_spec 0o755 (dst ++ w.drop src.length).dropLast fs []
    simp only [List.nil_append] at hs
    unfold FS.MkdirAll at h
    generalize hfs1 : FS.mkdirAllFrom 0o755 fs [] (dst ++ w.drop src.length).dropLast = r1 at h hs
    obtain ⟨fs1, e1⟩ := r1
    cases e1 with
    | some e => simp at h
    | none =>
    simp only [] at h hs
    cases hst : fs1.stat w with
    | error e => simp [hst] at h
    | ok e0 =>
    simp only [hst] at h
    unfold FS.Create at h
    generalize hfs2 : fs1.openTrunc (dst ++ w.drop src.length) 0o666 = r2 at h
    obtain ⟨fs2, e2⟩ := r2
    cases e2 with
    | some e => simp at h
    | none =>
    simp only [] at h
    obtain ⟨m0, hset⟩ := openTrunc_ok _ _ _ _ hfs2
    have hnp : ∀ q, ¬ q <+: dst ++ w.drop src.length →
        ¬ q <+: (dst ++ w.drop src.length).dropLast :=
      fun q hq hq' => hq (hq'.trans (List.dropLast_prefix _))
    cases hl : fs2.lookup w with
    | none => simp [hl] at h
    | some ew =>
    cases ew with
    | dir m => simp [hl] at h
    | file c' m' =>
    simp only [hl, Prod.mk.injEq, and_true] at h
    subst h
    subst hset
    refine ⟨?_, ?_, ?_⟩
    · intro q hq
      have hne : q ≠ dst ++ w.drop src.length := fun e => hq (e ▸ List.prefix_refl _)
      rw [lookup_set, if_neg hne, lookup_set, if_neg hne]
      exact hs.2 q (hnp q hq)
    · intro q e hq hne
      rw [lookup_set, if_neg hne, lookup_set, if_neg hne]
      exact hs.1 q e hq
    · intro _ c m hw hne
      rw [lookup_set, if_neg hne] at hl
      rw [hs.1 w _ hw] at hl
      cases hl
      rw [lookup_set, if_pos rfl]


theorem mkdirAllFrom_dirs (perm : Nat) (todo : List String) (fs : FS) (done : Path)
    (h : (FS.mkdirAllFrom perm fs done todo).2 = none) :
    ∀ k, 0 < k → k ≤ todo.length →
      ∃ m, (FS.mkdirAllFrom perm fs done todo).1.lookup (done ++ todo.take k) = some (.dir m) := by
  induction todo generalizing fs done with
  | nil => intro k h0 hk; simp at hk; omega
  | cons name rest ih =>
    intro k h0 hk
    simp only [FS.mkdirAllFrom] at h ⊢
    have hstep : ∀ fs1 : FS, (∃ m, fs1.lookup (done ++ [name]) = some (.dir m)) →
        (FS.mkdirAllFrom perm fs1 (done ++ [name]) rest).2 = none →
        ∃ m, (FS.mkdirAllFrom perm fs1 (done ++ [name]) rest).1.lookup
          (done ++ (name :: rest).take k) = some (.dir m) := by
      intro fs1 hd hok
      obtain ⟨m, hm⟩ := hd
      cases k with
      | zero => omega
      | succ k =>
        cases k with
        | zero =>
          exact ⟨m, by simpa using (mkdirAllFrom_spec perm rest fs1 (done ++ [name])).1 _ _ hm⟩
        | succ k =>
          have hk' : k + 1 ≤ rest.length := by simpa using hk
          obtain ⟨m', hm'⟩ := ih fs1 (done ++ [name]) hok (k + 1) (by omega) hk'
          exact ⟨m', by simpa using hm'⟩
    cases hl : fs.lookup (done ++ [name]) with
    | none =>
      simp only [hl] at h ⊢
      exact hstep _ ⟨_, by rw [lookup_set, if_pos rfl]⟩ h
    | some e =>
      cases e with
      | dir m =>
        simp only [hl] at h ⊢
        exact hstep _ ⟨m, hl⟩ h
      | file c m => simp [hl] at h

theorem openTrunc_not_dir (fs fs2 : FS) (p : Path) (perm : Nat)
    (h : fs.openTrunc p perm = (fs2, none)) : ∀ m, fs.lookup p ≠ some (.dir m) := by
  intro m hm
  unfold FS.openTrunc at h
  rw [hm] at h
  split at h <;> cases h

theorem dirsTo_mono (fs fs' : FS) (p : Path)
    (hkeep : ∀ q m, fs.lookup q = some (.dir m) → fs'.lookup q = some (.dir m))
    (h : DirsTo fs p) : DirsTo fs' p := by
  intro k h0 hk
  obtain ⟨m, hm⟩ := h k h0 hk
  exact ⟨m, hkeep _ _ hm⟩

/-- What a successful call of the walk function leaves of the directories: a directory
that exists stays one, and the directories on the way to the destination exist, the
destination itself included when the visited entry is a directory. -/
theorem copyEntry_dirs (src dst : Path) (fs fs' : FS) (w : Path) (b : Bool)
    (h : copyEntry src dst fs w b = (fs', none)) :
    (∀ q m, fs.lookup q = some (.dir m) → fs'.lookup q = some (.dir m)) ∧
    (b = true → DirsTo fs' (dst ++ w.drop src.length)) ∧
    (b = false → DirsTo fs' (dst ++ w.drop src.length).dropLast) := by
  unfold copyEntry at h
  simp only [] at h
  cases b with
  | true =>
    simp only [if_true] at h
    unfold FS.MkdirAll at h
    have hs := mkdirAllFrom_spec 0 (dst ++ w.drop src.length) fs []
    have hd := mkdirAllFrom_dirs 0 (dst ++ w.drop src.length) fs []
    rw [h] at hs hd
    simp only [List.nil_append] at hs hd
    refine ⟨fun q m hq => hs.1 q _ hq, fun _ => hd (by trivial), fun hb => nomatch hb⟩
  | false =>
    simp only [Bool.false_eq_true, if_false] at h
    have hs := mkdirAllFrom_spec 0o755 (dst ++ w.drop src.length).dropLast fs []
    have hd := mkdirAllFrom_dirs 0o755 (dst ++ w.drop src.length).dropLast fs []
    simp only [List.nil_append] at hs hd
    unfold FS.MkdirAll at h
    generalize hfs1 : FS.mkdirAllFrom 0o755 fs [] (dst ++ w.drop src.length).dropLast = r1
      at h hs hd
    obtain ⟨fs1, e1⟩ := r1
    cases e1 with
    | some e => simp at h
    | none =>
    simp only [] at h hs hd
    cases hst : fs1.stat w with
    | error e => simp [hst] at h
    | ok e0 =>
    simp only [hst] at h
    unfold FS.Create at h
    generalize hfs2 : fs1.openTrunc (dst ++ w.drop src.length) 0o666 = r2 at h
    obtain ⟨fs2, e2⟩ := r2
    cases e2 with
    | some e => simp at h
    | none =>
    simp only [] at h
    have hnotdir := openTrunc_not_dir _ _ _ _ hfs2
    obtain ⟨m0, hset⟩ := openTrunc_ok _ _ _ _ hfs2
    cases hl : fs2.lookup w with
    | none => simp [hl] at h
    | some ew =>
    cases ew with
    | dir m => simp [hl] at h
    | file c' m' =>
    simp only [hl, Prod.mk.injEq, and_true] at h
    subst h
    subst hset
    have hkeep : ∀ q m, fs1.lookup q = some (.dir m) →
        ((fs1.set (dst ++ w.drop src.length) (.file "" m0)).set (dst ++ w.drop src.length)
          (.file c' m')).lookup q = some (.dir m) := by
      intro q m hq
      have hne : q ≠ dst ++ w.drop src.length := fun e => hnotdir m (e ▸ hq)
      rw [lookup_set, if_neg hne, lookup_set, if_neg hne]
      exact hq
    refine ⟨fun q m hq => hkeep q m (hs.1 q _ hq), (fun hb => nomatch hb), fun _ => ?_⟩
    exact dirsTo_mono fs1 _ _ hkeep (hd (by trivial))


theorem children_mem (fs : FS) (p c : Path) (b : Bool) (h : (c, b) ∈ fs.children p) :
    ∃ n e, c = p ++ [n] ∧ fs.lookup c = some e ∧ b = e.isDir := by
  unfold FS.children at h
  obtain ⟨n, -, hn⟩ := List.mem_filterMap.1 h
  cases hl : fs.lookup (p ++ [n]) with
  | none => simp [hl] at hn
  | some e =>
    simp only [hl, Option.map_some', Option.some.injEq, Prod.mk.injEq] at hn
    exact ⟨n, e, hn.1.symm, by rw [← hn.1]; exact hl, hn.2.symm⟩

theorem mem_names (fs : FS) (p : Path) (n : String) (e : Entry)
    (h : fs.lookup (p ++ [n]) = some e) : n ∈ fs.names p := by
  unfold FS.names
  rw [(List.perm_insertionSort _ _).mem_iff, List.mem_dedup, List.mem_filterMap]
  refine ⟨(p ++ [n], e), lookup_mem _ _ _ h, ?_⟩
  simp

theorem mem_children (fs : FS) (p : Path) (n : String) (e : Entry)
    (h : fs.lookup (p ++ [n]) = some e) : (p ++ [n], e.isDir) ∈ fs.children p := by
  unfold FS.children
  rw [List.mem_filterMap]
  exact ⟨n, mem_names fs p n e h, by simp [h]⟩


/-- An entry of the tree that waits below the first entry to visit is that entry, or
waits below an entry still to visit after the visit. -/
theorem pending_next (start fs1 : FS) (src : Path) (w : Path) (b : Bool)
    (rest : List (Path × Bool)) (relw : List String) (e : Entry)
    (hw : w = src ++ relw) (hse : start.lookup w = some e) (hb : b = e.isDir)
    (hsrc : ∀ q, src <+: q → fs1.lookup q = start.lookup q)
    (rel : List String) (e0 : Entry) (he0 : start.lookup (src ++ rel) = some e0)
    (htree : InTree start src rel) (w' : Path) (b' : Bool)
    (hmem : (w', b') ∈ (w, b) :: rest) (hpre : w' <+: src ++ rel) :
    rel = relw ∨
      ∃ w'' b'', (w'', b'') ∈ (if b then fs1.children w ++ rest else rest) ∧
        w'' <+: src ++ rel := by
  rcases List.mem_cons.1 hmem with hm | hm
  · cases hm
    have hrp : relw <+: rel := by
      rw [hw] at hpre
      exact (List.prefix_append_right_inj src).1 hpre
    obtain ⟨t, ht⟩ := hrp
    cases t with
    | nil => exact Or.inl (by simpa using ht.symm)
    | cons n t =>
      have hlen : relw.length < rel.length := by rw [← ht]; simp
      obtain ⟨m', hm'⟩ := htree relw.length hlen
      have htake : rel.take relw.length = relw := by rw [← ht]; simp
      rw [htake, ← hw, hse] at hm'
      cases hm'
      have hbt : b = true := hb
      subst hbt
      have hchild : ∃ ec, start.lookup (w ++ [n]) = some ec := by
        cases t with
        | nil =>
          refine ⟨e0, ?_⟩
          rw [← he0, hw, ← ht]
          simp
        | cons n' t' =>
          have hlen' : relw.length + 1 < rel.length := by rw [← ht]; simp
          obtain ⟨m'', hm''⟩ := htree (relw.length + 1) hlen'
          have htake' : rel.take (relw.length + 1) = relw ++ [n] := by
            rw [← ht]
            simp [List.take_append_eq_append_take]
          refine ⟨.dir m'', ?_⟩
          rw [← hm'', htake', hw]
          simp
      obtain ⟨ec, hec⟩ := hchild
      have hin : src <+: w ++ [n] := by rw [hw]; exact ⟨relw ++ [n], by simp⟩
      right
      refine ⟨w ++ [n], ec.isDir, ?_, ?_⟩
      · simp only [if_true]
        apply List.mem_append_left
        apply mem_children
        rw [hsrc _ hin]
        exact hec
      · rw [hw, ← ht]
        exact ⟨t, by simp⟩
  · right
    refine ⟨w', b', ?_, hpre⟩
    cases b with
    | true => simp only [if_true]; exact List.mem_append_right _ hm
    | false => simpa using hm

theorem walkInv_step (start : FS) (src dst : Path) (hap : Apart start src dst)
    (fs fs1 : FS) (w : Path) (b : Bool) (rest : List (Path × Bool))
    (inv : WalkInv start src dst fs ((w, b) :: rest))
    (h : copyEntry src dst fs w b = (fs1, none)) :
    WalkInv start src dst fs1 (if b then fs1.children w ++ rest else rest) := by
  obtain ⟨relw, e, hw, hse, hb⟩ := inv.pending w b (List.mem_cons_self _ _)
  have hdrop : w.drop src.length = relw := by rw [hw]; simp
  obtain ⟨E1, E2, E4⟩ := copyEntry_spec src dst fs fs1 w b h
  obtain ⟨E5, E6, E7⟩ := copyEntry_dirs src dst fs fs1 w b h
  rw [hdrop] at E1 E2 E4 E6 E7
  have hnd : ¬ src <+: dst ++ relw := by
    apply hap relw
    rw [← hw, hse]
    simp
  have hsrc : ∀ q, src <+: q → fs1.lookup q = start.lookup q := by
    intro q hq
    rw [E1 q (fun hqd => hnd (hq.trans hqd))]
    exact inv.source q hq
  have hwne : w ≠ dst ++ relw := by
    intro heq
    apply hnd
    rw [← heq, hw]
    exact List.prefix_append _ _
  have hfsw : fs.lookup w = start.lookup w :=
    inv.source w (by rw [hw]; exact List.prefix_append _ _)
  have hhead : ∀ c m, start.lookup (src ++ relw) = some (.file c m) →
      fs1.lookup (dst ++ relw) = some (.file c m) ∧ DirsTo fs1 (dst ++ relw).dropLast := by
    intro c m hfile
    rw [← hw] at hfile
    have hbf : b = false := by
      rw [hfile] at hse
      cases hse
      exact hb
    exact ⟨E4 hbf c m (by rw [hfsw, hfile]) hwne, E7 hbf⟩
  refine ⟨hsrc, ?_, ?_, ?_⟩
  · intro w' b' hmem
    have hcases : (w', b') ∈ rest ∨ (b = true ∧ (w', b') ∈ fs1.children w) := by
      cases b with
      | true =>
        simp only [if_true] at hmem
        rcases List.mem_append.1 hmem with hm | hm
        · exact Or.inr ⟨rfl, hm⟩
        · exact Or.inl hm
      | false => exact Or.inl (by simpa using hmem)
    rcases hcases with hm | ⟨-, hm⟩
    · exact inv.pending w' b' (List.mem_cons_of_mem _ hm)
    · obtain ⟨n, e', hc, hl, hb'⟩ := children_mem fs1 w w' b' hm
      refine ⟨relw ++ [n], e', by rw [hc, hw]; simp, ?_, hb'⟩
      rw [← hsrc w' (by rw [hc, hw]; exact ⟨relw ++ [n], by simp⟩)]
      exact hl
  · intro rel c m hfile htree
    rcases inv.files rel c m hfile htree with ⟨hd, hdirs⟩ | ⟨w', b', hmem, hpre⟩
    · by_cases heq : dst ++ rel = dst ++ relw
      · have hrel : rel = relw := List.append_cancel_left heq
        subst hrel
        exact Or.inl (hhead c m hfile)
      · exact Or.inl ⟨E2 _ _ hd heq, dirsTo_mono fs fs1 _ E5 hdirs⟩
    · rcases pending_next start fs1 src w b rest relw e hw hse hb hsrc rel _ hfile htree
          w' b' hmem hpre with hrel | hp
      · subst hrel
        exact Or.inl (hhead c m hfile)
      · exact Or.inr hp
  · intro rel m hdir htree
    rcases inv.dirs rel m hdir htree with hd | ⟨w', b', hmem, hpre⟩
    · exact Or.inl (dirsTo_mono fs fs1 _ E5 hd)
    · rcases pending_next start fs1 src w b rest relw e hw hse hb hsrc rel _ hdir htree
          w' b' hmem hpre with hrel | hp
      · subst hrel
        rw [← hw, hse] at hdir
        cases hdir
        exact Or.inl (E6 hb)
      · exact Or.inr hp

theorem walk_inv (start : FS) (src dst : Path) (hap : Apart start src dst) (fuel : Nat) :
    ∀ (fs : FS) (todo : List (Path × Bool)) (fs' : FS),
      WalkInv start src dst fs todo → walk src dst fuel fs todo = some (fs', none) →
      WalkInv start src dst fs' [] := by
  induction fuel with
  | zero =>
    intro fs todo fs' inv h
    cases todo with
    | nil =>
      simp only [walk, Option.some.injEq, Prod.mk.injEq, and_true] at h
      rw [← h]
      exact inv
    | cons x rest => simp [walk] at h
  | succ fuel ih =>
    intro fs todo fs' inv h
    cases todo with
    | nil =>
      simp only [walk, Option.some.injEq, Prod.mk.injEq, and_true] at h
      rw [← h]
      exact inv
    | cons x rest =>
      obtain ⟨w, b⟩ := x
      simp only [walk] at h
      generalize hce : copyEntry src dst fs w b = r at h
      obtain ⟨fs1, e1⟩ := r
      cases e1 with
      | some e => simp at h
      | none =>
        simp only [] at h
        have inv1 := walkInv_step start src dst hap fs fs1 w b rest inv hce
        cases b with
        | true =>
          simp only [if_true] at h inv1
          exact ih _ _ _ inv1 h
        | false =>
          simp only [Bool.false_eq_true, if_false] at h inv1
          exact ih _ _ _ inv1 h

theorem stat_ok (fs : FS) (p : Path) (e : Entry) (h : fs.stat p = .ok e) :
    fs.lookup p = some e := by
  unfold FS.stat at h
  cases hl : fs.lookup p with
  | some e' =>
    simp only [hl, Except.ok.injEq] at h
    rw [h]
  | none =>
    simp only [hl] at h
    split at h <;> cases h

/-- What a successful `CopyDir` leaves, when it writes nothing into the tree it reads:
the tree at `src` is unchanged; every regular file of it is at the same relative path
below `dst` with its bytes and its mode; every directory of it is a directory there;
and the directories on the way to these exist. -/
theorem copyDir_tree (fuel : Nat) (fs fs' : FS) (src dst : String)
    (h : CopyDir fuel fs src dst = some (fs', none))
    (hap : Apart fs (resolve src) (resolve dst)) :
    (∀ q, resolve src <+: q → fs'.lookup q = fs.lookup q) ∧
    (∀ rel c m, fs.lookup (resolve src ++ rel) = some (.file c m) →
      InTree fs (resolve src) rel →
      fs'.lookup (resolve dst ++ rel) = some (.file c m) ∧
        DirsTo fs' (resolve dst ++ rel).dropLast) ∧
    (∀ rel m, fs.lookup (resolve src ++ rel) = some (.dir m) →
      InTree fs (resolve src) rel → DirsTo fs' (resolve dst ++ rel)) := by
  unfold CopyDir at h
  cases hst : fs.stat (resolve src) with
  | error e => simp [hst] at h
  | ok e =>
    simp only [hst] at h
    have hl := stat_ok fs _ e hst
    have inv0 : WalkInv fs (resolve src) (resolve dst) fs [(resolve src, e.isDir)] :=
      ⟨fun _ _ => rfl,
       fun w b hm => by
        simp only [List.mem_singleton, Prod.mk.injEq] at hm
        exact ⟨[], e, by simp [hm.1], by rw [hm.1]; exact hl, hm.2⟩,
       fun rel c m _ _ =>
        Or.inr ⟨resolve src, e.isDir, List.mem_singleton_self _, List.prefix_append _ _⟩,
       fun rel m _ _ =>
        Or.inr ⟨resolve src, e.isDir, List.mem_singleton_self _, List.prefix_append _ _⟩⟩
    have inv := walk_inv fs (resolve src) (resolve dst) hap fuel fs _ fs' inv0 h
    refine ⟨inv.source, ?_, ?_⟩
    · intro rel c m hf ht
      rcases inv.files rel c m hf ht with hd | ⟨w, b, hm, -⟩
      · exact hd
      · simp at hm
    · intro rel m hd ht
      rcases inv.dirs rel m hd ht with hd | ⟨w, b, hm, -⟩
      · exact hd
      · simp at hm

/-! ## The walk ends -/

theorem countP_split {α : Type} (l : List α) (p r : α → Bool) (h : ∀ q, p q = true → r q = true) :
    l.countP p + l.countP (fun q => r q && !p q) = l.countP r := by
  induction l with
  | nil => simp
  | cons q rest ih =>
    simp only [List.countP_cons]
    have := h q
    cases hp : p q <;> cases hr : r q <;> simp [hp, hr] at this ⊢ <;> omega

theorem child_prefix_unique (p q : Path) (n n' : String)
    (h : (p ++ [n]).isPrefixOf q = true) (h' : (p ++ [n']).isPrefixOf q = true) : n = n' := by
  rw [List.isPrefixOf_iff_prefix] at h h'
  obtain ⟨t, ht⟩ := h
  obtain ⟨t', ht'⟩ := h'
  rw [← ht', List.append_assoc, List.append_assoc, List.append_cancel_left_eq] at ht
  simp at ht
  exact ht.1

theorem sum_countP_children {β : Type} (E : List (Path × β)) (p : Path) :
    ∀ (ns : List String) (r : Path × β → Bool), ns.Nodup →
      (∀ n ∈ ns, ∀ q, (p ++ [n]).isPrefixOf q.1 = true → r q = true) →
      (ns.map (fun n => E.countP (fun q => (p ++ [n]).isPrefixOf q.1))).sum ≤ E.countP r := by
  intro ns
  induction ns with
  | nil => intro r _ _; simp
  | cons n rest ih =>
    intro r hnd hr
    rw [List.nodup_cons] at hnd
    have hsplit := countP_split E (fun q => (p ++ [n]).isPrefixOf q.1) r
      (fun q hq => hr n (List.mem_cons_self _ _) q hq)
    have hrest := ih (fun q => r q && !(p ++ [n]).isPrefixOf q.1) hnd.2
      (fun n' hn' q hq => by
        have hrq := hr n' (List.mem_cons_of_mem _ hn') q hq
        cases hpn : (p ++ [n]).isPrefixOf q.1 with
        | false => simp [hrq, hpn]
        | true =>
          have := child_prefix_unique p q.1 n n' hpn hq
          rw [← this] at hn'
          exact absurd hn' hnd.1)
    simp only [List.map_cons, List.sum_cons]
    beta_reduce at hsplit
    omega

theorem names_nodup (fs : FS) (p : Path) : (fs.names p).Nodup := by
  unfold FS.names
  exact (List.perm_insertionSort _ _).nodup_iff.2 (List.nodup_dedup _)

theorem sum_filterMap_le {α γ : Type} (f : α → Option γ) (g : γ → Nat) (h : α → Nat)
    (hfg : ∀ a c, f a = some c → g c = h a) :
    ∀ l : List α, ((l.filterMap f).map g).sum ≤ (l.map h).sum := by
  intro l
  induction l with
  | nil => simp
  | cons a rest ih =>
    cases hf : f a with
    | none =>
      rw [List.filterMap_cons_none hf]
      simp only [List.map_cons, List.sum_cons]
      omega
    | some c =>
      rw [List.filterMap_cons_some hf]
      simp only [List.map_cons, List.sum_cons]
      rw [hfg a c hf]
      omega

theorem children_weight (start fs1 : FS) (p : Path) (e : Entry)
    (h : start.lookup p = some e) :
    pendingWeight start (fs1.children p) < weight start p := by
  have hmem : (p, e) ∈ start.entries := lookup_mem _ _ _ h
  unfold pendingWeight FS.children
  have h1 := sum_filterMap_le
    (fun n => (fs1.lookup (p ++ [n])).map (fun e => (p ++ [n], e.isDir)))
    (fun t => weight start t.1) (fun n => weight start (p ++ [n]))
    (fun a c hc => by
      cases hl : fs1.lookup (p ++ [a]) with
      | none => simp [hl] at hc
      | some e' =>
        simp only [hl, Option.map_some', Option.some.injEq] at hc
        rw [← hc])
    (fs1.names p)
  have h2 := sum_countP_children start.entries p (fs1.names p)
    (fun q => p.isPrefixOf q.1 && (q.1 != p)) (names_nodup fs1 p)
    (fun n _ q hq => by
      rw [List.isPrefixOf_iff_prefix] at hq
      obtain ⟨t, ht⟩ := hq
      have hp : p.isPrefixOf q.1 = true := by
        rw [List.isPrefixOf_iff_prefix, ← ht, List.append_assoc]
        exact List.prefix_append _ _
      have hne : q.1 ≠ p := by
        intro heq
        have := congrArg List.length ht
        rw [heq] at this
        simp at this
      simp [hp, hne])
  have h3 := countP_split start.entries (fun q => p.isPrefixOf q.1 && (q.1 != p))
    (fun q => p.isPrefixOf q.1) (fun q hq => by simp at hq; simpa using hq.1)
  have h4 : 0 < start.entries.countP
      (fun q => p.isPrefixOf q.1 && !(p.isPrefixOf q.1 && (q.1 != p))) := by
    rw [List.countP_pos_iff]
    refine ⟨(p, e), hmem, ?_⟩
    have hp : p.isPrefixOf p = true := List.isPrefixOf_iff_prefix.2 (List.prefix_refl _)
    simp [hp]
  unfold weight at h1 ⊢
  beta_reduce at h1 h2 h3 h4
  omega

theorem weight_pos (start : FS) (w : Path) (e : Entry) (h : start.lookup w = some e) :
    0 < weight start w := by
  unfold weight
  rw [List.countP_pos_iff]
  exact ⟨(w, e), lookup_mem _ _ _ h,
    List.isPrefixOf_iff_prefix.2 (List.prefix_refl _)⟩

theorem pendingWeight_append (start : FS) (l1 l2 : List (Path × Bool)) :
    pendingWeight start (l1 ++ l2) = pendingWeight start l1 + pendingWeight start l2 := by
  unfold pendingWeight
  simp

/-- A walk that writes nothing into the tree it reads ends: the fuel that the entries
still to visit weigh is enough. -/
theorem walk_returns (start : FS) (src dst : Path) (hap : Apart start src dst) (fuel : Nat) :
    ∀ (fs : FS) (todo : List (Path × Bool)),
      WalkInv start src dst fs todo → pendingWeight start todo ≤ fuel →
      ∃ r, walk src dst fuel fs todo = some r := by
  induction fuel with
  | zero =>
    intro fs todo inv hw
    cases todo with
    | nil => exact ⟨_, rfl⟩
    | cons x rest =>
      obtain ⟨w, b⟩ := x
      obtain ⟨rel, e, -, hse, -⟩ := inv.pending w b (List.mem_cons_self _ _)
      have := weight_pos start w e hse
      simp only [pendingWeight, List.map_cons, List.sum_cons] at hw
      omega
  | succ fuel ih =>
    intro fs todo inv hw
    cases todo with
    | nil => exact ⟨_, rfl⟩
    | cons x rest =>
      obtain ⟨w, b⟩ := x
      obtain ⟨rel, e, -, hse, -⟩ := inv.pending w b (List.mem_cons_self _ _)
      have hpos := weight_pos start w e hse
      have hw' : weight start w + pendingWeight start rest ≤ fuel + 1 := by
        simpa only [pendingWeight, List.map_cons, List.sum_cons] using hw
      simp only [walk]
      generalize hce : copyEntry src dst fs w b = r
      obtain ⟨fs1, e1⟩ := r
      cases e1 with
      | some e => exact ⟨_, rfl⟩
      | none =>
        simp only []
        have inv1 := walkInv_step start src dst hap fs fs1 w b rest inv hce
        cases b with
        | true =>
          simp only [if_true] at inv1 ⊢
          apply ih fs1 _ inv1
          rw [pendingWeight_append]
          have := children_weight start fs1 w e hse
          omega
        | false =>
          simp only [Bool.false_eq_true, if_false] at inv1 ⊢
          apply ih fs1 _ inv1
          omega

/-- More fuel does not change the result of a walk that ended. -/
theorem walk_mono (src dst : Path) (fuel : Nat) :
    ∀ (fs : FS) (todo : List (Path × Bool)) (r : FS × Option GoError) (fuel' : Nat),
      walk src dst fuel fs todo = some r → fuel ≤ fuel' →
      walk src dst fuel' fs todo = some r := by
  induction fuel with
  | zero =>
    intro fs todo r fuel' h _
    cases todo with
    | nil =>
      cases fuel' <;> simpa [walk] using h
    | cons x rest => simp [walk] at h
  | succ fuel ih =>
    intro fs todo r fuel' h hle
    cases todo with
    | nil =>
      cases fuel' <;> simpa [walk] using h
    | cons x rest =>
      obtain ⟨w, b⟩ := x
      obtain ⟨k, rfl⟩ : ∃ k, fuel' = k + 1 := ⟨fuel' - 1, by omega⟩
      simp only [walk] at h ⊢
      generalize copyEntry src dst fs w b = c at h ⊢
      obtain ⟨fs1, e1⟩ := c
      cases e1 with
      | some e => exact h
      | none =>
        simp only [] at h ⊢
        cases b with
        | true =>
          simp only [if_true] at h ⊢
          exact ih _ _ _ _ h (by omega)
        | false =>
          simp only [Bool.false_eq_true, if_false] at h ⊢
          exact ih _ _ _ _ h (by omega)

/-- The function `CopyDir` returns when it writes nothing into the tree it reads and the
fuel is at least the number of entries of the file system. -/
theorem copyDir_returns (fuel : Nat) (fs : FS) (src dst : String)
    (hap : Apart fs (resolve src) (resolve dst)) (hfuel : fs.entries.length ≤ fuel) :
    ∃ r, CopyDir fuel fs src dst = some r := by
  unfold CopyDir
  cases hst : fs.stat (resolve src) with
  | error e => exact ⟨_, rfl⟩
  | ok e =>
    simp only []
    have hl := stat_ok fs _ e hst
    have inv0 : WalkInv fs (resolve src) (resolve dst) fs [(resolve src, e.isDir)] :=
      ⟨fun _ _ => rfl,
       fun w b hm => by
        simp only [List.mem_singleton, Prod.mk.injEq] at hm
        exact ⟨[], e, by simp [hm.1], by rw [hm.1]; exact hl, hm.2⟩,
       fun rel c m _ _ =>
        Or.inr ⟨resolve src, e.isDir, List.mem_singleton_self _, List.prefix_append _ _⟩,
       fun rel m _ _ =>
        Or.inr ⟨resolve src, e.isDir, List.mem_singleton_self _, List.prefix_append _ _⟩⟩
    apply walk_returns fs (resolve src) (resolve dst) hap fuel fs _ inv0
    have : weight fs (resolve src) ≤ fs.entries.length := List.countP_le_length _
    simp only [pendingWeight, List.map_cons, List.map_nil, List.sum_cons, List.sum_nil]
    omega

theorem copyDir_mono (fuel fuel' : Nat) (fs : FS) (src dst : String) (r : FS × Option GoError)
    (h : CopyDir fuel fs src dst = some r) (hle : fuel ≤ fuel') :
    CopyDir fuel' fs src dst = some r := by
  unfold CopyDir at h ⊢
  cases hst : fs.stat (resolve src) with
  | error e => simpa [hst] using h
  | ok e =>
    simp only [hst] at h ⊢
    exact walk_mono _ _ fuel _ _ _ _ h hle

/-- The check `apartCheck` on the entries of a file system is enough for `Apart`. -/
theorem apart_of_check (fs : FS) (src dst : Path) (h : apartCheck fs src dst = true) :
    Apart fs src dst := by
  intro rel hne hpre
  cases hl : fs.lookup (src ++ rel) with
  | none => exact hne hl
  | some e =>
    have hmem := lookup_mem _ _ _ hl
    unfold apartCheck at h
    rw [List.all_eq_true] at h
    have hq := h _ hmem
    have h1 : src.isPrefixOf (src ++ rel) = true :=
      List.isPrefixOf_iff_prefix.2 (List.prefix_append _ _)
    have h2 : src.isPrefixOf (dst ++ rel) = true := List.isPrefixOf_iff_prefix.2 hpre
    simp [h1, h2] at hq

/-- The loop of `PreDump` over the additional paths returns for every fuel from some
bound on, when no additional path has its destination inside itself. -/
theorem copyAdditional_returns (imageDir : String) :
    ∀ (paths : List String) (fs : FS) (trace : List FsEvent),
      (∀ p ∈ paths, ∀ rel,
        ¬ resolve p <+: resolve (Join [imageDir, "extraFiles", p]) ++ rel) →
      ∃ bound, ∀ fuel, bound ≤ fuel →
        ∃ out, copyAdditional fuel imageDir fs trace paths = some out := by
  intro paths
  induction paths with
  | nil => intro fs trace _; exact ⟨0, fun _ _ => ⟨_, rfl⟩⟩
  | cons p rest ih =>
    intro fs trace hap
    have hrest : ∀ q ∈ rest, ∀ rel,
        ¬ resolve q <+: resolve (Join [imageDir, "extraFiles", q]) ++ rel :=
      fun q hq => hap q (List.mem_cons_of_mem _ hq)
    generalize hskip : (match fs.stat (resolve p) with
      | .error e => osIsNotExist (some e)
      | .ok _ => false) = skip
    cases skip with
    | true =>
      obtain ⟨bound, hb⟩ := ih fs trace hrest
      refine ⟨bound, fun fuel hf => ?_⟩
      obtain ⟨out, hout⟩ := hb fuel hf
      exact ⟨out, by simp only [copyAdditional, hskip, if_true]; exact hout⟩
    | false =>
      obtain ⟨r, hr⟩ := copyDir_returns fs.entries.length fs p
        (Join [imageDir, "extraFiles", p])
        (fun rel _ => hap p (List.mem_cons_self _ _) rel) (Nat.le_refl _)
      obtain ⟨fs1, e1⟩ := r
      cases e1 with
      | some e =>
        refine ⟨fs.entries.length, fun fuel hf => ?_⟩
        have := copyDir_mono _ fuel fs p _ _ hr hf
        exact ⟨⟨fs1, trace ++ [.copyDir p (Join [imageDir, "extraFiles", p])],
            some (.wrap ("failed to copy " ++ p ++ ": ") e)⟩,
          by simp only [copyAdditional, hskip, Bool.false_eq_true, if_false, this]⟩
      | none =>
        obtain ⟨bound, hb⟩ := ih fs1 (trace ++ [.copyDir p (Join [imageDir, "extraFiles", p])])
          hrest
        refine ⟨max fs.entries.length bound, fun fuel hf => ?_⟩
        have := copyDir_mono _ fuel fs p _ _ hr (by omega)
        obtain ⟨out, hout⟩ := hb fuel (by omega)
        exact ⟨out, by
          simp only [copyAdditional, hskip, Bool.false_eq_true, if_false, this]
          exact hout⟩

theorem preDump_returns (w : World) (fs : FS) (a : Actions)
    (hap : ∀ p ∈ a.configuration.AdditionalPaths, ∀ rel,
      ¬ resolve p <+: resolve (Join [a.configuration.ImageDir, "extraFiles", p]) ++ rel) :
    ∃ bound, ∀ fuel, bound ≤ fuel → ∃ out, a.PreDump fuel w fs = some out := by
  unfold Actions.PreDump
  simp only []
  cases readTrio w (Join ["/proc", toString a.pid, "fd"]) [0, 1, 2] with
  | error e => exact ⟨0, fun _ _ => ⟨_, rfl⟩⟩
  | ok trio =>
    simp only []
    cases w.MarshalOnDisk
      { Configuration := a.configuration, UnixFileDescriptorTrio := trio } with
    | error e => exact ⟨0, fun _ _ => ⟨_, rfl⟩⟩
    | ok confYAML =>
      simp only []
      generalize FS.WriteFile _ _ confYAML 0o600 = r2
      obtain ⟨fs2, e2⟩ := r2
      cases e2 with
      | some e => exact ⟨0, fun _ _ => ⟨_, rfl⟩⟩
      | none =>
        simp only []
        generalize fs2.MkdirAll _ 0o755 = r3
        obtain ⟨fs3, e3⟩ := r3
        cases e3 with
        | some e => exact ⟨0, fun _ _ => ⟨_, rfl⟩⟩
        | none => exact copyAdditional_returns _ _ _ _ hap

/-! ## The pre-dump action, the copy of a tree and the round trip -/

/-- A successful walk keeps every entry that is not at or below the destination. -/
theorem walk_keeps (src dst q : Path) (e : Entry) (hq : ¬ dst <+: q) (fuel : Nat) :
    ∀ (fs : FS) (todo : List (Path × Bool)) (fs' : FS),
      walk src dst fuel fs todo = some (fs', none) → fs.lookup q = some e →
      fs'.lookup q = some e := by
  induction fuel with
  | zero =>
    intro fs todo fs' h hl
    cases todo with
    | nil =>
      simp only [walk, Option.some.injEq, Prod.mk.injEq, and_true] at h
      rw [← h]
      exact hl
    | cons x rest => simp [walk] at h
  | succ fuel ih =>
    intro fs todo fs' h hl
    cases todo with
    | nil =>
      simp only [walk, Option.some.injEq, Prod.mk.injEq, and_true] at h
      rw [← h]
      exact hl
    | cons x rest =>
      obtain ⟨w, b⟩ := x
      simp only [walk] at h
      generalize hce : copyEntry src dst fs w b = r at h
      obtain ⟨fs1, e1⟩ := r
      cases e1 with
      | some e => simp at h
      | none =>
        simp only [] at h
        have hne : q ≠ dst ++ w.drop src.length := by
          intro heq
          apply hq
          rw [heq]
          exact List.prefix_append _ _
        have hl1 := (copyEntry_spec src dst fs fs1 w b hce).2.1 q e hl hne
        cases b with
        | true =>
          simp only [if_true] at h
          exact ih _ _ _ h hl1
        | false =>
          simp only [Bool.false_eq_true, if_false] at h
          exact ih _ _ _ h hl1

/-- A successful `CopyDir` keeps every entry that is not at or below its destination. -/
theorem copyDir_keeps (fuel : Nat) (fs fs' : FS) (src dst : String) (q : Path) (e : Entry)
    (h : CopyDir fuel fs src dst = some (fs', none)) (hq : ¬ resolve dst <+: q)
    (hl : fs.lookup q = some e) : fs'.lookup q = some e := by
  unfold CopyDir at h
  cases hst : fs.stat (resolve src) with
  | error e => simp [hst] at h
  | ok e0 =>
    simp only [hst] at h
    exact walk_keeps _ _ q e hq fuel _ _ _ h hl

/-- The loop of `PreDump` over the additional paths, when it succeeds, keeps every entry
that is not at or below the destination of an additional path. -/
theorem copyAdditional_keeps (fuel : Nat) (imageDir : String) (q : Path) (e : Entry) :
    ∀ (paths : List String) (fs : FS) (trace : List FsEvent) (out : PreDumpOutcome),
      copyAdditional fuel imageDir fs trace paths = some out → out.err = none →
      (∀ p ∈ paths, ¬ resolve (Join [imageDir, "extraFiles", p]) <+: q) →
      fs.lookup q = some e → out.fs.lookup q = some e := by
  intro paths
  induction paths with
  | nil =>
    intro fs trace out h _ _ hl
    simp only [copyAdditional, Option.some.injEq] at h
    rw [← h]
    exact hl
  | cons p rest ih =>
    intro fs trace out h herr hfree hl
    have hrest : ∀ p' ∈ rest, ¬ resolve (Join [imageDir, "extraFiles", p']) <+: q :=
      fun p' hp' => hfree p' (List.mem_cons_of_mem _ hp')
    simp only [copyAdditional] at h
    split at h
    · exact ih _ _ _ h herr hrest hl
    · generalize hc : CopyDir fuel fs p (Join [imageDir, "extraFiles", p]) = r at h
      cases r with
      | none => simp at h
      | some r =>
        obtain ⟨fs1, e1⟩ := r
        cases e1 with
        | some e' =>
          simp only [Option.some.injEq] at h
          rw [← h] at herr
          cases herr
        | none =>
          simp only [] at h
          exact ih _ _ _ h herr hrest
            (copyDir_keeps fuel fs fs1 p _ q e hc (hfree p (List.mem_cons_self _ _)) hl)

/-- A successful `os.WriteFile` leaves a regular file with the data at the path. -/
theorem writeFile_ok (fs fs2 : FS) (p : Path) (data : String) (perm : Nat)
    (h : fs.WriteFile p data perm = (fs2, none)) :
    ∃ m, fs2.lookup p = some (.file data m) := by
  unfold FS.WriteFile at h
  generalize ho : fs.openTrunc p perm = r at h
  obtain ⟨fs1, e1⟩ := r
  cases e1 with
  | some e => simp at h
  | none =>
    simp only [] at h
    cases hl : fs1.lookup p with
    | none => simp [hl] at h
    | some e0 =>
      cases e0 with
      | dir m => simp [hl] at h
      | file c m =>
        simp only [hl, Prod.mk.injEq, and_true] at h
        rw [← h, lookup_set, if_pos rfl]
        exact ⟨m, rfl⟩

/-- What a successful `PreDump` leaves on disk: when no additional path has its
destination at or above `imageDir/configuration.yaml`, that file holds the bytes that
were written. -/
theorem preDump_disk (fuel : Nat) (w : World) (fs : FS) (a : Actions) (out : PreDumpOutcome)
    (trio : List String) (confYAML : String)
    (h : a.PreDump fuel w fs = some out) (herr : out.err = none)
    (hr : readTrio w (Join ["/proc", toString a.pid, "fd"]) [0, 1, 2] = .ok trio)
    (hm : w.MarshalOnDisk
      { Configuration := a.configuration, UnixFileDescriptorTrio := trio } = .ok confYAML)
    (hfree : ∀ p ∈ a.configuration.AdditionalPaths,
      ¬ resolve (Join [a.configuration.ImageDir, "extraFiles", p]) <+:
        resolve (Join [a.configuration.ImageDir, ConfigurationFileName])) :
    ∃ m, out.fs.lookup (resolve (Join [a.configuration.ImageDir, ConfigurationFileName])) =
      some (.file confYAML m) := by
  unfold Actions.PreDump at h
  simp only [hr, hm] at h
  generalize hw : FS.WriteFile _ (resolve (Join [a.configuration.ImageDir, ConfigurationFileName]))
    confYAML 0o600 = r2 at h
  obtain ⟨fs2, e2⟩ := r2
  cases e2 with
  | some e =>
    simp only [Option.some.injEq] at h
    rw [← h] at herr
    cases herr
  | none =>
    simp only [] at h
    obtain ⟨m, hl2⟩ := writeFile_ok _ _ _ _ _ hw
    generalize hmk : fs2.MkdirAll (resolve (Join [a.configuration.ImageDir, "extraFiles"])) 0o755 =
      r3 at h
    obtain ⟨fs3, e3⟩ := r3
    cases e3 with
    | some e =>
      simp only [Option.some.injEq] at h
      rw [← h] at herr
      cases herr
    | none =>
      simp only [] at h
      have hl3 : fs3.lookup (resolve (Join [a.configuration.ImageDir, ConfigurationFileName])) =
          some (.file confYAML m) := by
        have hs := (mkdirAllFrom_spec 0o755
          (resolve (Join [a.configuration.ImageDir, "extraFiles"])) fs2 []).1 _ _ hl2
        unfold FS.MkdirAll at hmk
        rw [hmk] at hs
        exact hs
      exact ⟨m, copyAdditional_keeps fuel _ _ _ _ _ _ out h herr hfree hl3⟩

/-- The loop of `PreDump` over the descriptors returns the three links when each can be
read. -/
theorem readTrio_ok (w : World) (fdDir : String) (l0 l1 l2 : String)
    (h0 : w.Readlink (Join [fdDir, "0"]) = .ok l0)
    (h1 : w.Readlink (Join [fdDir, "1"]) = .ok l1)
    (h2 : w.Readlink (Join [fdDir, "2"]) = .ok l2) :
    readTrio w fdDir [0, 1, 2] = .ok [l0, l1, l2] := by
  have t0 : toString (0 : Nat) = "0" := by decide
  have t1 : toString (1 : Nat) = "1" := by decide
  have t2 : toString (2 : Nat) = "2" := by decide
  simp [readTrio, t0, t1, t2, h0, h1, h2]

/-- C11, amended: whenever `PreDump` succeeds, the three links `/proc/<pid>/fd/0`, `1`
and `2` were read, and the one file it wrote is `imageDir/configuration.yaml`, with the
mode bits 0600 and the content `yaml.Marshal` gives for the user configuration,
unchanged, together with a `unixFileDescriptorTrio` of exactly these three link targets
in this order; and when no additional path has its destination
`imageDir/extraFiles/<path>` at or above `imageDir/configuration.yaml`, the file holds
exactly this content when `PreDump` returns.  When the link of any of the three indices
cannot be read, `PreDump` returns an error (whatever the fuel), has written no file and
leaves the file system as the removals of the inotify-incompatible paths left it.  And
`PreDump` does return, for every fuel from some bound on, when no additional path has
its destination inside itself. -/
theorem preDump_trio (fuel : Nat) (w : World) (fs : FS) (a : Actions) :
    (∀ out, a.PreDump fuel w fs = some out → out.err = none →
      ∃ l0 l1 l2 confYAML,
        w.Readlink (Join [Join ["/proc", toString a.pid, "fd"], "0"]) = .ok l0 ∧
        w.Readlink (Join [Join ["/proc", toString a.pid, "fd"], "1"]) = .ok l1 ∧
        w.Readlink (Join [Join ["/proc", toString a.pid, "fd"], "2"]) = .ok l2 ∧
        w.MarshalOnDisk
          { Configuration := a.configuration, UnixFileDescriptorTrio := [l0, l1, l2] } =
            .ok confYAML ∧
        out.trace.filter FsEvent.isWrite =
          [.writeFile (Join [a.configuration.ImageDir, ConfigurationFileName]) confYAML 0o600] ∧
        ((∀ p ∈ a.configuration.AdditionalPaths,
            ¬ resolve (Join [a.configuration.ImageDir, "extraFiles", p]) <+:
              resolve (Join [a.configuration.ImageDir, ConfigurationFileName])) →
          ∃ m, out.fs.lookup
              (resolve (Join [a.configuration.ImageDir, ConfigurationFileName])) =
            some (.file confYAML m))) ∧
    (∀ i e, i < 3 →
      w.Readlink (Join [Join ["/proc", toString a.pid, "fd"], toString i]) = .error e →
      ∃ out, a.PreDump fuel w fs = some out ∧ out.err ≠ none ∧
        out.trace.filter FsEvent.isWrite = [] ∧
        out.fs = a.configuration.InotifyIncompatiblePaths.foldl
          (fun fs p => fs.RemoveAll (resolve p)) fs) ∧
    ((∀ p ∈ a.configuration.AdditionalPaths, ∀ rel,
        ¬ resolve p <+: resolve (Join [a.configuration.ImageDir, "extraFiles", p]) ++ rel) →
      ∃ bound, ∀ fuel', bound ≤ fuel' → ∃ out, a.PreDump fuel' w fs = some out) := by
  refine ⟨?_, ?_, preDump_returns w fs a⟩
  · intro out h herr
    obtain ⟨l0, l1, l2, confYAML, h0, h1, h2, hm, htrace⟩ :=
      (preDump_run fuel w fs a).1 out h herr
    exact ⟨l0, l1, l2, confYAML, h0, h1, h2, hm, htrace, fun hfree =>
      preDump_disk fuel w fs a out [l0, l1, l2] confYAML h herr
        (readTrio_ok w _ l0 l1 l2 h0 h1 h2) hm hfree⟩
  · intro i e hi h
    obtain ⟨e', he'⟩ := readTrio_fails w _ i hi e h
    refine ⟨⟨a.configuration.InotifyIncompatiblePaths.foldl
        (fun fs p => fs.RemoveAll (resolve p)) fs,
      a.configuration.InotifyIncompatiblePaths.map FsEvent.removeAll, some e'⟩, ?_, ?_, ?_, rfl⟩
    · unfold Actions.PreDump
      simp only [he']
    · simp
    · simp [FsEvent.isWrite]

/-- C11, amended, at a concrete checkpoint: `PreDump` succeeds for the process 9001 and
leaves the trio of its three links in `/ckpt/configuration.yaml`. -/
theorem preDump_trio_witness :
    ∃ out, dumpActions.PreDump 100 dumpWorld dumpFS = some out ∧ out.err = none ∧
      ∃ m, out.fs.lookup ["ckpt", "configuration.yaml"] =
        some (.file "unixFileDescriptorTrio: /dev/null, pipe:[101], pipe:[102]" m) := by
  have hsome : (dumpActions.PreDump 100 dumpWorld dumpFS).map (fun o => o.err) = some none := by
    decide
  cases h : dumpActions.PreDump 100 dumpWorld dumpFS with
  | none => rw [h] at hsome; cases hsome
  | some out =>
    rw [h] at hsome
    have herr : out.err = none := by simpa using hsome
    obtain ⟨l0, l1, l2, confYAML, h0, h1, h2, hm, -, hdisk⟩ :=
      (preDump_trio 100 dumpWorld dumpFS dumpActions).1 out h herr
    have e0 : dumpWorld.Readlink (Join [Join ["/proc", toString dumpActions.pid, "fd"], "0"]) =
        .ok "/dev/null" := by rfl
    have e1 : dumpWorld.Readlink (Join [Join ["/proc", toString dumpActions.pid, "fd"], "1"]) =
        .ok "pipe:[101]" := by rfl
    have e2 : dumpWorld.Readlink (Join [Join ["/proc", toString dumpActions.pid, "fd"], "2"]) =
        .ok "pipe:[102]" := by rfl
    rw [e0] at h0
    rw [e1] at h1
    rw [e2] at h2
    cases h0
    cases h1
    cases h2
    have em : dumpWorld.MarshalOnDisk
        { Configuration := dumpActions.configuration,
          UnixFileDescriptorTrio := ["/dev/null", "pipe:[101]", "pipe:[102]"] } =
        .ok "unixFileDescriptorTrio: /dev/null, pipe:[101], pipe:[102]" := by rfl
    rw [em] at hm
    cases hm
    have hpath : resolve (Join [dumpActions.configuration.ImageDir, ConfigurationFileName]) =
        ["ckpt", "configuration.yaml"] := by decide
    rw [hpath] at hdisk
    exact ⟨out, rfl, herr, hdisk (by decide)⟩

/-- C11, counterexample: the additional path `/../configuration.yaml` names the file
`/configuration.yaml`, and its destination `/ckpt/extraFiles//../configuration.yaml` is
`/ckpt/configuration.yaml`.  `PreDump` succeeds, the one file it wrote with
`os.WriteFile` carried the trio, and when it returns `/ckpt/configuration.yaml` holds
the bytes of `/configuration.yaml`, without a trio. -/
theorem preDump_configuration_overwritten :
    resolve (Join ["/ckpt", "extraFiles", "/../configuration.yaml"]) =
      resolve (Join ["/ckpt", ConfigurationFileName]) ∧
    (overwriteActions.PreDump 100 dumpWorld overwriteFS).map
        (fun out => (out.err, out.trace.filter FsEvent.isWrite,
          out.fs.lookup (resolve (Join ["/ckpt", ConfigurationFileName])))) =
      some (none,
        [.writeFile "/ckpt/configuration.yaml"
          "unixFileDescriptorTrio: /dev/null, pipe:[101], pipe:[102]" 0o600],
        some (.file "imageDir: /elsewhere" 0o644)) := by
  decide

/-- X3: when `CopyDir src dst` writes nothing into the tree it reads, it returns (the
fuel being at least the number of entries of the file system), and when it returns
without an error every regular file of the tree at `src` (every directory on the way to
it being a directory) is afterwards both at its place below `src` and at the same
relative path below `dst`, with the same bytes and the same mode. -/
theorem copyDir_copies_files (fuel : Nat) (fs : FS) (src dst : String)
    (hap : Apart fs (resolve src) (resolve dst)) (hfuel : fs.entries.length ≤ fuel) :
    ∃ r, CopyDir fuel fs src dst = some r ∧
      (r.2 = none →
        ∀ rel c m, fs.lookup (resolve src ++ rel) = some (.file c m) →
          InTree fs (resolve src) rel →
          r.1.lookup (resolve src ++ rel) = some (.file c m) ∧
            r.1.lookup (resolve dst ++ rel) = some (.file c m)) := by
  obtain ⟨r, hr⟩ := copyDir_returns fuel fs src dst hap hfuel
  obtain ⟨fs', e⟩ := r
  refine ⟨(fs', e), hr, ?_⟩
  intro he rel c m hf ht
  simp only at he
  subst he
  obtain ⟨hsrc, hfiles, -⟩ := copyDir_tree fuel fs fs' src dst hr hap
  exact ⟨by rw [hsrc _ (List.prefix_append _ _)]; exact hf, (hfiles rel c m hf ht).1⟩

/-- The copy of `/data` into the image directory `/ckpt` holds `/data/sub/c` with its
bytes and its mode 0444, and leaves the original in place. -/
theorem copyDir_copies_files_witness :
    dumpedFS.lookup ["data", "sub", "c"] = some (.file "sea" 0o444) ∧
    dumpedFS.lookup ["ckpt", "extraFiles", "data", "sub", "c"] =
      some (.file "sea" 0o444) := by
  obtain ⟨r, hr, h⟩ := copyDir_copies_files 100 dumpFS "/data" "/ckpt/extraFiles/data"
    (apart_of_check _ _ _ (by decide)) (by decide)
  have e : CopyDir 100 dumpFS "/data" "/ckpt/extraFiles/data" = some (dumpedFS, none) := by
    decide
  rw [e] at hr
  cases hr
  exact h rfl ["sub", "c"] "sea" 0o444 (by decide)
    (fun k hk => by
      have hk2 : k < 2 := hk
      interval_cases k
      · exact ⟨0o750, by decide⟩
      · exact ⟨0o700, by decide⟩)

/-- C13, amended: let neither `CopyDir p (imageDir/extraFiles/p)` at checkpoint nor
`CopyDir (imageDir/extraFiles) "/"` at restore write into the tree it reads, and let
`imageDir/extraFiles/p` resolve to the path of `imageDir/extraFiles` followed by the
path of `p`.  Then both copies return (the fuel being at least the number of entries of
the file system), and when both return without an error and the restoring file system
holds below `imageDir/extraFiles` what the checkpoint left there, every regular file of
the tree at `p` at checkpoint time is, after the restore, at its original path with the
same bytes and the same mode, whatever the restoring file system held elsewhere. -/
theorem copy_round_trip (fuel1 fuel2 : Nat) (fs0 fs2 : FS) (p imageDir : String)
    (hpath : resolve (Join [imageDir, "extraFiles", p]) =
      resolve (Join [imageDir, "extraFiles"]) ++ resolve p)
    (hap1 : Apart fs0 (resolve p) (resolve (Join [imageDir, "extraFiles", p])))
    (hfuel1 : fs0.entries.length ≤ fuel1)
    (hap2 : Apart fs2 (resolve (Join [imageDir, "extraFiles"])) (resolve "/"))
    (hfuel2 : fs2.entries.length ≤ fuel2) :
    ∃ r1 r3, CopyDir fuel1 fs0 p (Join [imageDir, "extraFiles", p]) = some r1 ∧
      CopyDir fuel2 fs2 (Join [imageDir, "extraFiles"]) "/" = some r3 ∧
      (r1.2 = none → r3.2 = none →
        (∀ q, resolve (Join [imageDir, "extraFiles"]) <+: q →
          fs2.lookup q = r1.1.lookup q) →
        ∀ rel c m, fs0.lookup (resolve p ++ rel) = some (.file c m) →
          InTree fs0 (resolve p) rel →
          r3.1.lookup (resolve p ++ rel) = some (.file c m)) := by
  obtain ⟨r1, hdump⟩ := copyDir_returns fuel1 fs0 p _ hap1 hfuel1
  obtain ⟨r3, hrestore⟩ := copyDir_returns fuel2 fs2 _ "/" hap2 hfuel2
  obtain ⟨fs1, e1⟩ := r1
  obtain ⟨fs3, e3⟩ := r3
  refine ⟨(fs1, e1), (fs3, e3), hdump, hrestore, ?_⟩
  intro he1 he3 hcarry rel c m hfile htree
  simp only at he1 he3 hcarry ⊢
  subst he1
  subst he3
  have hroot : resolve "/" = [] := by decide
  rw [hroot] at hap2
  generalize hX : resolve (Join [imageDir, "extraFiles"]) = X at hpath hcarry hrestore hap2
  generalize hP : resolve p = P at hpath hdump hap1 hfile htree
  obtain ⟨-, hf1, -⟩ := copyDir_tree fuel1 fs0 fs1 p _ hdump (by rw [hP]; exact hap1)
  rw [hP] at hf1
  obtain ⟨hcopy, hdirs⟩ := hf1 rel c m hfile htree
  rw [hpath, List.append_assoc] at hcopy hdirs
  have hin : fs2.lookup (X ++ (P ++ rel)) = some (.file c m) := by
    rw [hcarry _ (List.prefix_append _ _)]
    exact hcopy
  have hXne : X ≠ [] := by
    intro hnil
    have := hap2 (P ++ rel) (by rw [hin]; simp)
    apply this
    rw [hnil]
    exact List.nil_prefix
  have hXlen : 0 < X.length := List.length_pos.2 hXne
  have htree2 : InTree fs2 X (P ++ rel) := by
    intro k hk
    have hpre : X ++ (P ++ rel).take k = (X ++ (P ++ rel)).dropLast.take (X.length + k) := by
      rw [List.dropLast_eq_take, List.take_take, List.length_append,
        Nat.min_eq_left (by omega), List.take_append]
    have hlen : X.length + k ≤ (X ++ (P ++ rel)).dropLast.length := by
      rw [List.length_dropLast, List.length_append]
      omega
    obtain ⟨m', hm'⟩ := hdirs (X.length + k) (by omega) hlen
    rw [← hpre] at hm'
    exact ⟨m', by rw [hcarry _ (List.prefix_append _ _)]; exact hm'⟩
  obtain ⟨-, hf3, -⟩ := copyDir_tree fuel2 fs2 fs3 _ "/" hrestore
    (by rw [hX, hroot]; exact hap2)
  rw [hX, hroot] at hf3
  simpa using (hf3 (P ++ rel) c m hin htree2).1

/-- The round trip of `/data` through the image directory `/ckpt`: the restoring file
system holds other bytes and another mode at `/data/a.txt`, and the restore puts back
the bytes and the mode of checkpoint time. -/
theorem copy_round_trip_witness :
    restoringFS.lookup ["data", "a.txt"] = some (.file "stale" 0o600) ∧
    restoredFS.lookup (resolve "/data" ++ ["a.txt"]) = some (.file "hello" 0o644) := by
  obtain ⟨r1, r3, h1, h3, h⟩ := copy_round_trip 100 100 dumpFS restoringFS "/data" "/ckpt"
    (by decide) (apart_of_check _ _ _ (by decide)) (by decide)
    (apart_of_check _ _ _ (by decide)) (by decide)
  have e1 : CopyDir 100 dumpFS "/data" (Join ["/ckpt", "extraFiles", "/data"]) =
      some (dumpedFS, none) := by decide
  have e3 : CopyDir 100 restoringFS (Join ["/ckpt", "extraFiles"]) "/" =
      some (restoredFS, none) := by decide
  rw [e1] at h1
  rw [e3] at h3
  cases h1
  cases h3
  refine ⟨by decide, h rfl rfl (fun q hq => ?_) ["a.txt"] "hello" 0o644 (by decide)
    (fun k hk => ?_)⟩
  · unfold restoringFS
    rw [lookup_set, if_neg]
    intro heq
    rw [heq] at hq
    revert hq
    decide
  · have : k = 0 := by simpa using hk
    subst this
    exact ⟨0o750, by decide⟩

/-- C13, counterexample: `/data/a.txt` is a regular file at checkpoint time and the
checkpoint-side copy of `/data` succeeds; on a restoring file system that has a
directory at `/data/a.txt`, the restore-side copy returns the error of `os.Create` and
`/data/a.txt` is still that directory, not the file of checkpoint time. -/
theorem copy_round_trip_blocked :
    dumpFS.lookup ["data", "a.txt"] = some (.file "hello" 0o644) ∧
    CopyDir 100 dumpFS "/data" "/ckpt/extraFiles/data" = some (dumpedFS, none) ∧
    (CopyDir 100 blockedFS "/ckpt/extraFiles" "/").map
        (fun r => (r.2, r.1.lookup ["data", "a.txt"])) =
      some (some (.lib "is a directory" false), some (.dir 0o755)) := by
  decide

end Crik
